import Mathlib

/-!
# Domain operator: reconcile loop of `domain-operator`

A shallow embedding of
`domain-operator/internal/controller/domain_controller.go` and
`domain-operator/internal/database/db.go`.

The reconciler talks to two external systems through interfaces: the
Kubernetes client (`r.Get`, `r.Update`, `r.Status().Update`, `r.Create`,
`r.Delete`) and the pgx connection pool (`QueryRow(..).Scan`, `Exec`).  The
embedding takes those interfaces as a record of state-transition functions
over an arbitrary world type, and every call the code makes is appended to a
trace together with the error it returned.  Logging calls are left out.
-/

namespace DomainOperator

/-! ## Go errors -/

/-- A Go `error` value.  `mk` is an error produced by an adapter: its
`Error()` text and whether its API status reason is NotFound.  `wrap` is the
value built by `fmt.Errorf` with a `%w` verb: its text and the wrapped error. -/
inductive GoError where
  | mk (msg : String) (notFound : Bool) : GoError
  | wrap (msg : String) (inner : GoError) : GoError
  deriving DecidableEq, Repr

/-- The method `err.Error()`. -/
def GoError.Error : GoError → String
  | .mk msg _ => msg
  | .wrap msg _ => msg

/-- The test `errors.IsNotFound(err)` of apimachinery: the status reason of
the error, looked up through the chain of wrapped errors. -/
def IsNotFound : GoError → Bool
  | .mk _ nf => nf
  | .wrap _ inner => IsNotFound inner

/-- The call `fmt.Errorf(format + ": %w", err)` where `text` is the formatted
text before the wrapped error. -/
def ErrorfW (text : String) (err : GoError) : GoError :=
  .wrap (text ++ err.Error) err

/-- The call `fmt.Errorf(format + " %v", err)`: a fresh error that keeps only
the text of `err`. -/
def ErrorfV (text : String) (err : GoError) : GoError :=
  .mk (text ++ err.Error) false

/-! ## Data model -/

/-- The type `domainv1alpha1.DomainSpec`. -/
structure DomainSpec where
  DomainID : String
  Environments : List String
  deriving DecidableEq, Repr

/-- The type `domainv1alpha1.DomainStatus`. -/
structure DomainStatus where
  Valid : Bool
  deriving DecidableEq, Repr

/-- The type `domainv1alpha1.Domain`, with the object metadata the reconciler
reads: name, namespace, finalizers and deletion timestamp. -/
structure Domain where
  Namespace : String
  Name : String
  Finalizers : List String
  DeletionTimestamp : Option Nat
  Spec : DomainSpec
  Status : DomainStatus
  deriving DecidableEq, Repr

/-- The type `types.NamespacedName`. -/
structure NamespacedName where
  Namespace : String
  Name : String
  deriving DecidableEq, Repr

/-- The type `ctrl.Request`. -/
structure Request where
  NamespacedName : NamespacedName
  deriving DecidableEq, Repr

/-- The field `req.Name`, promoted from the embedded `NamespacedName`. -/
def Request.Name (req : Request) : String := req.NamespacedName.Name

/-- The type `ctrl.Result`. -/
structure Result where
  Requeue : Bool := false
  RequeueAfter : Nat := 0
  deriving DecidableEq, Repr

/-- The type `corev1.Namespace`: its name and labels. -/
structure Namespace where
  Name : String
  Labels : List (String × String)
  deriving DecidableEq, Repr

/-- An argument of a SQL statement: a text or an array of texts. -/
inductive SqlArg where
  | text (s : String) : SqlArg
  | textArray (l : List String) : SqlArg
  deriving DecidableEq, Repr

/-- The method `DeletionTimestamp.IsZero()` of `*metav1.Time`: a nil pointer
or the zero time. -/
def IsZero : Option Nat → Bool
  | none => true
  | some t => t == 0

/-! ## Finalizer helpers of `controllerutil` -/

def domainFinalizer : String := "domain.platform.com/controller_finalizer"

/-- The function `controllerutil.ContainsFinalizer`. -/
def ContainsFinalizer (o : Domain) (finalizer : String) : Bool :=
  o.Finalizers.any fun e => e == finalizer

/-- The function `controllerutil.AddFinalizer`: appends unless present. -/
def AddFinalizer (o : Domain) (finalizer : String) : Domain :=
  if o.Finalizers.any (fun e => e == finalizer) then o
  else { o with Finalizers := o.Finalizers ++ [finalizer] }

/-- The function `controllerutil.RemoveFinalizer`: drops every occurrence. -/
def RemoveFinalizer (o : Domain) (finalizer : String) : Domain :=
  { o with Finalizers := o.Finalizers.filter fun e => !(e == finalizer) }

/-! ## The adapters and the trace of calls -/

/-- The two adapters as state transitions over a world `σ`: the Kubernetes
client for Domain and Namespace objects and the pgx pool.  `QueryRow` stands
for `pool.QueryRow(..).Scan(&domain_id, &environments)`. -/
structure Client (σ : Type) where
  GetDomain : NamespacedName → σ → Except GoError Domain × σ
  UpdateDomain : Domain → σ → Option GoError × σ
  StatusUpdate : Domain → σ → Option GoError × σ
  GetNamespace : NamespacedName → σ → Except GoError Namespace × σ
  CreateNamespace : Namespace → σ → Option GoError × σ
  DeleteNamespace : Namespace → σ → Option GoError × σ
  QueryRow : String → List SqlArg → σ → Except GoError DomainSpec × σ
  Exec : String → List SqlArg → σ → Option GoError × σ

/-- An adapter call with its arguments. -/
inductive Call where
  | getDomain (key : NamespacedName) : Call
  | updateDomain (d : Domain) : Call
  | statusUpdate (d : Domain) : Call
  | getNamespace (key : NamespacedName) : Call
  | createNamespace (ns : Namespace) : Call
  | deleteNamespace (ns : Namespace) : Call
  | queryRow (sql : String) (args : List SqlArg) : Call
  | exec (sql : String) (args : List SqlArg) : Call
  deriving DecidableEq, Repr

/-- One entry of the trace: the call and the error it returned. -/
structure Event where
  call : Call
  err : Option GoError
  deriving DecidableEq, Repr

/-- The state of a run: the world and the calls made so far. -/
structure Run (σ : Type) where
  world : σ
  trace : List Event

deriving instance DecidableEq for Except

/-- The error of a fallible result, `none` when there is a value. -/
def errOf {α : Type} : Except GoError α → Option GoError
  | .error e => some e
  | .ok _ => none

/-- The call `r.Get(ctx, key, &domain)`. -/
def callGetDomain {σ : Type} (c : Client σ) (key : NamespacedName) (s : Run σ) :
    Except GoError Domain × Run σ :=
  ((c.GetDomain key s.world).1,
    ⟨(c.GetDomain key s.world).2,
      s.trace ++ [⟨.getDomain key, errOf (c.GetDomain key s.world).1⟩]⟩)

/-- The call `r.Update(ctx, &domain)`. -/
def callUpdateDomain {σ : Type} (c : Client σ) (d : Domain) (s : Run σ) :
    Option GoError × Run σ :=
  ((c.UpdateDomain d s.world).1,
    ⟨(c.UpdateDomain d s.world).2,
      s.trace ++ [⟨.updateDomain d, (c.UpdateDomain d s.world).1⟩]⟩)

/-- The call `r.Status().Update(ctx, domain)`. -/
def callStatusUpdate {σ : Type} (c : Client σ) (d : Domain) (s : Run σ) :
    Option GoError × Run σ :=
  ((c.StatusUpdate d s.world).1,
    ⟨(c.StatusUpdate d s.world).2,
      s.trace ++ [⟨.statusUpdate d, (c.StatusUpdate d s.world).1⟩]⟩)

/-- The call `r.Get(ctx, key, ns)` on a Namespace. -/
def callGetNamespace {σ : Type} (c : Client σ) (key : NamespacedName) (s : Run σ) :
    Except GoError Namespace × Run σ :=
  ((c.GetNamespace key s.world).1,
    ⟨(c.GetNamespace key s.world).2,
      s.trace ++ [⟨.getNamespace key, errOf (c.GetNamespace key s.world).1⟩]⟩)

/-- The call `r.Create(ctx, ns)`. -/
def callCreateNamespace {σ : Type} (c : Client σ) (ns : Namespace) (s : Run σ) :
    Option GoError × Run σ :=
  ((c.CreateNamespace ns s.world).1,
    ⟨(c.CreateNamespace ns s.world).2,
      s.trace ++ [⟨.createNamespace ns, (c.CreateNamespace ns s.world).1⟩]⟩)

/-- The call `r.Delete(ctx, ns)`. -/
def callDeleteNamespace {σ : Type} (c : Client σ) (ns : Namespace) (s : Run σ) :
    Option GoError × Run σ :=
  ((c.DeleteNamespace ns s.world).1,
    ⟨(c.DeleteNamespace ns s.world).2,
      s.trace ++ [⟨.deleteNamespace ns, (c.DeleteNamespace ns s.world).1⟩]⟩)

/-- The call `pool.QueryRow(ctx, sql, args...).Scan(..)`. -/
def callQueryRow {σ : Type} (c : Client σ) (sql : String) (args : List SqlArg)
    (s : Run σ) : Except GoError DomainSpec × Run σ :=
  ((c.QueryRow sql args s.world).1,
    ⟨(c.QueryRow sql args s.world).2,
      s.trace ++ [⟨.queryRow sql args, errOf (c.QueryRow sql args s.world).1⟩]⟩)

/-- The call `pool.Exec(ctx, sql, args...)`. -/
def callExec {σ : Type} (c : Client σ) (sql : String) (args : List SqlArg)
    (s : Run σ) : Option GoError × Run σ :=
  ((c.Exec sql args s.world).1,
    ⟨(c.Exec sql args s.world).2,
      s.trace ++ [⟨.exec sql args, (c.Exec sql args s.world).1⟩]⟩)

/-! ## `internal/database/db.go` -/

def selectSQL : String :=
  "SELECT domain_id, environments FROM domains WHERE domain_id = $1"

def insertSQL : String :=
  "INSERT INTO domains(domain_id, environments) VALUES ($1, $2)"

def updateSQL : String :=
  "UPDATE domains SET environments = $2 WHERE domain_id = $1"

def deleteSQL : String :=
  "DELETE FROM domains WHERE domain_id = $1"

/-- The function `database.GetDomain`: a scan error whose text is
"no rows in result set" gives the zero `DomainSpec` and no error. -/
def GetDomain {σ : Type} (c : Client σ) (domainID : String) (s : Run σ) :
    (DomainSpec × Option GoError) × Run σ :=
  match callQueryRow c selectSQL [.text domainID] s with
  | (.ok domain, s1) => ((domain, none), s1)
  | (.error err, s1) =>
    if err.Error = "no rows in result set" then ((⟨"", []⟩, none), s1)
    else ((⟨"", []⟩, some err), s1)

/-- The function `database.CreateDomain`. -/
def CreateDomain {σ : Type} (c : Client σ) (domain : DomainSpec) (s : Run σ) :
    Option GoError × Run σ :=
  callExec c insertSQL [.text domain.DomainID, .textArray domain.Environments] s

/-- The function `database.UpdateDomain`. -/
def UpdateDomain {σ : Type} (c : Client σ) (domain : DomainSpec) (s : Run σ) :
    Option GoError × Run σ :=
  callExec c updateSQL [.text domain.DomainID, .textArray domain.Environments] s

/-- The function `database.DeleteDomain`. -/
def DeleteDomain {σ : Type} (c : Client σ) (domainID : String) (s : Run σ) :
    Option GoError × Run σ :=
  callExec c deleteSQL [.text domainID] s

/-! ## `internal/controller/domain_controller.go` -/

/-- The method `deleteDomainFromDB`. -/
def deleteDomainFromDB {σ : Type} (c : Client σ) (domainName : String) (s : Run σ) :
    Option GoError × Run σ :=
  match DeleteDomain c domainName s with
  | (some err, s1) => (some err, s1)
  | (none, s1) => (none, s1)

/-- The method `deleteNamespaceForDomain`. -/
def deleteNamespaceForDomain {σ : Type} (c : Client σ) (domainName : String)
    (s : Run σ) : Option GoError × Run σ :=
  match callGetNamespace c ⟨"", domainName⟩ s with
  | (.error err, s1) =>
    if IsNotFound err then (none, s1)
    else
      (some (ErrorfW ("failed to get namespace " ++ domainName ++ " for deletion: ") err),
        s1)
  | (.ok ns, s1) =>
    match callDeleteNamespace c ns s1 with
    | (some err, s2) =>
      (some (ErrorfW ("failed to delete namespace " ++ domainName ++ ": ") err), s2)
    | (none, s2) => (none, s2)

/-- The method `finalizeDomain`. -/
def finalizeDomain {σ : Type} (c : Client σ) (domain : Domain) (s : Run σ) :
    Option GoError × Run σ :=
  match deleteDomainFromDB c domain.Name s with
  | (some err, s1) => (some err, s1)
  | (none, s1) =>
    match deleteNamespaceForDomain c domain.Name s1 with
    | (some err, s2) => (some err, s2)
    | (none, s2) => (none, s2)

/-- The method `updateDomainStatus`. -/
def updateDomainStatus {σ : Type} (c : Client σ) (domain : Domain) (isValid : Bool)
    (s : Run σ) : (Result × Option GoError) × Run σ :=
  match callStatusUpdate c { domain with Status := { domain.Status with Valid := isValid } } s with
  | (some err, s1) => (({}, some err), s1)
  | (none, s1) => (({}, none), s1)

/-- The method `createNamespaceForDomain`. -/
def createNamespaceForDomain {σ : Type} (c : Client σ) (domain : Domain) (s : Run σ) :
    Option GoError × Run σ :=
  match callGetNamespace c ⟨"", domain.Spec.DomainID⟩ s with
  | (.error err, s1) =>
    if IsNotFound err then
      match callCreateNamespace c
          { Name := domain.Spec.DomainID,
            Labels := [("platform.com/domain", domain.Spec.DomainID),
                       ("platform.com/managed-by", "domain-operator")] } s1 with
      | (some err2, s2) =>
        (some (ErrorfW ("failed to create namespace for domain " ++ domain.Spec.DomainID
          ++ ": ") err2), s2)
      | (none, s2) => (none, s2)
    else
      (some (ErrorfW ("failed to get namespace " ++ domain.Spec.DomainID ++ ": ") err), s1)
  | (.ok _, s1) => (none, s1)

/-- The method `createOrUpdateDomain`. -/
def createOrUpdateDomain {σ : Type} (c : Client σ) (domain : Domain) (operation : String)
    (s : Run σ) : Option GoError × Run σ :=
  match (if operation = "create" then CreateDomain c domain.Spec s
         else UpdateDomain c domain.Spec s) with
  | (some err, s1) => (some err, s1)
  | (none, s1) =>
    match createNamespaceForDomain c domain s1 with
    | (some err, s2) => (some err, s2)
    | (none, s2) => (none, s2)

/-- The method `syncDomainWithDatabase`. -/
def syncDomainWithDatabase {σ : Type} (c : Client σ) (domain : Domain) (s : Run σ) :
    Option GoError × Run σ :=
  match GetDomain c domain.Spec.DomainID s with
  | ((_, some err), s1) => (some err, s1)
  | ((exists_, none), s1) =>
    if exists_.DomainID = "" then createOrUpdateDomain c domain "create" s1
    else createOrUpdateDomain c domain "update" s1

/-- The method `DomainReconciler.Reconcile`.  `Validate` is the method
`domain.Validate()` of the api package, which the controller only consumes. -/
def Reconcile {σ : Type} (c : Client σ) (Validate : Domain → Option GoError)
    (req : Request) (s : Run σ) : (Result × Option GoError) × Run σ :=
  match callGetDomain c req.NamespacedName s with
  | (.error err, s1) =>
    if IsNotFound err then (({}, none), s1) else (({}, some err), s1)
  | (.ok domain, s1) =>
    if !ContainsFinalizer domain domainFinalizer then
      match callUpdateDomain c (AddFinalizer domain domainFinalizer) s1 with
      | (err, s2) => (({}, err), s2)
    else if !IsZero domain.DeletionTimestamp then
      if ContainsFinalizer domain domainFinalizer then
        match finalizeDomain c domain s1 with
        | (some err, s2) => (({}, some err), s2)
        | (none, s2) =>
          match callUpdateDomain c (RemoveFinalizer domain domainFinalizer) s2 with
          | (some err, s3) => (({}, some (ErrorfV "error removing finalizer " err)), s3)
          | (none, s3) => (({}, none), s3)
      else (({}, none), s1)
    else if req.Name != domain.Spec.DomainID then
      updateDomainStatus c domain false s1
    else
      match Validate domain with
      | some _ => updateDomainStatus c domain false s1
      | none =>
        match syncDomainWithDatabase c domain s1 with
        | (some err, s2) => (({}, some err), s2)
        | (none, s2) => updateDomainStatus c domain true s2

/-! ## An in-memory world for the two external systems

The API server holds Domain and Namespace objects, the database holds the
rows of table `domains`.  A list of pending faults lets any adapter call fail:
each call takes the head of the list, and fails with it, without effect, when
it is an error. -/

/-- The in-memory state of the API server and of the database. -/
structure World where
  domains : List Domain
  namespaces : List Namespace
  rows : List DomainSpec
  faults : List (Option GoError)
  deriving DecidableEq, Repr

namespace World

/-- Takes the next pending fault. -/
def nextFault (w : World) : Option GoError × World :=
  match w.faults with
  | [] => (none, w)
  | f :: rest => (f, { w with faults := rest })

def errNotFound : GoError := .mk "not found" true

def errAlreadyExists : GoError := .mk "already exists" false

def errNoRows : GoError := .mk "no rows in result set" false

def errDuplicateKey : GoError :=
  .mk "duplicate key value violates unique constraint" false

def errStatement : GoError := .mk "unsupported statement" false

/-- Reads the Domain object stored under a key. -/
def getDomain (key : NamespacedName) (w : World) : Except GoError Domain × World :=
  match nextFault w with
  | (some e, w1) => (.error e, w1)
  | (none, w1) =>
    match w1.domains.find? fun d => d.Namespace == key.Namespace && d.Name == key.Name with
    | some d => (.ok d, w1)
    | none => (.error errNotFound, w1)

/-- Writes metadata and spec of a stored Domain object; the status is a
subresource and keeps its stored value. -/
def updateDomain (d : Domain) (w : World) : Option GoError × World :=
  match nextFault w with
  | (some e, w1) => (some e, w1)
  | (none, w1) =>
    if w1.domains.any fun x => x.Namespace == d.Namespace && x.Name == d.Name then
      (none, { w1 with domains := w1.domains.map fun x =>
        if x.Namespace == d.Namespace && x.Name == d.Name
        then { d with Status := x.Status } else x })
    else (some errNotFound, w1)

/-- Writes the status of a stored Domain object and nothing else. -/
def statusUpdate (d : Domain) (w : World) : Option GoError × World :=
  match nextFault w with
  | (some e, w1) => (some e, w1)
  | (none, w1) =>
    if w1.domains.any fun x => x.Namespace == d.Namespace && x.Name == d.Name then
      (none, { w1 with domains := w1.domains.map fun x =>
        if x.Namespace == d.Namespace && x.Name == d.Name
        then { x with Status := d.Status } else x })
    else (some errNotFound, w1)

/-- Reads the Namespace object of a name. -/
def getNamespace (key : NamespacedName) (w : World) : Except GoError Namespace × World :=
  match nextFault w with
  | (some e, w1) => (.error e, w1)
  | (none, w1) =>
    match w1.namespaces.find? fun n => n.Name == key.Name with
    | some n => (.ok n, w1)
    | none => (.error errNotFound, w1)

/-- Creates a Namespace object; a name already taken is an error. -/
def createNamespace (ns : Namespace) (w : World) : Option GoError × World :=
  match nextFault w with
  | (some e, w1) => (some e, w1)
  | (none, w1) =>
    if w1.namespaces.any fun n => n.Name == ns.Name then (some errAlreadyExists, w1)
    else (none, { w1 with namespaces := w1.namespaces ++ [ns] })

/-- Deletes the Namespace object of that name; an absent one is NotFound. -/
def deleteNamespace (ns : Namespace) (w : World) : Option GoError × World :=
  match nextFault w with
  | (some e, w1) => (some e, w1)
  | (none, w1) =>
    if w1.namespaces.any fun n => n.Name == ns.Name then
      (none, { w1 with namespaces := w1.namespaces.filter fun n => !(n.Name == ns.Name) })
    else (some errNotFound, w1)

/-- Runs the SELECT of `GetDomain` and scans the first row. -/
def queryRow (sql : String) (args : List SqlArg) (w : World) :
    Except GoError DomainSpec × World :=
  match nextFault w with
  | (some e, w1) => (.error e, w1)
  | (none, w1) =>
    if sql = selectSQL then
      match args with
      | [.text id] =>
        match w1.rows.find? fun r => r.DomainID == id with
        | some r => (.ok r, w1)
        | none => (.error errNoRows, w1)
      | _ => (.error errStatement, w1)
    else (.error errStatement, w1)

/-- Modelled from the spec: the declaration of table `domains` is not among
the sources; the spec has one row keyed by `id` and at most one record per
`id`, so an INSERT of an `id` that has a row fails.  UPDATE and DELETE act on
every row of the `id` and succeed when there is none. -/
def exec (sql : String) (args : List SqlArg) (w : World) : Option GoError × World :=
  match nextFault w with
  | (some e, w1) => (some e, w1)
  | (none, w1) =>
    if sql = insertSQL then
      match args with
      | [.text id, .textArray envs] =>
        if w1.rows.any fun r => r.DomainID == id then (some errDuplicateKey, w1)
        else (none, { w1 with rows := w1.rows ++ [⟨id, envs⟩] })
      | _ => (some errStatement, w1)
    else if sql = updateSQL then
      match args with
      | [.text id, .textArray envs] =>
        (none, { w1 with rows := w1.rows.map fun r =>
          if r.DomainID == id then { r with Environments := envs } else r })
      | _ => (some errStatement, w1)
    else if sql = deleteSQL then
      match args with
      | [.text id] =>
        (none, { w1 with rows := w1.rows.filter fun r => !(r.DomainID == id) })
      | _ => (some errStatement, w1)
    else (some errStatement, w1)

/-- The in-memory adapters. -/
def client : Client World where
  GetDomain := getDomain
  UpdateDomain := updateDomain
  StatusUpdate := statusUpdate
  GetNamespace := getNamespace
  CreateNamespace := createNamespace
  DeleteNamespace := deleteNamespace
  QueryRow := queryRow
  Exec := exec

end World

/-- A run of `Reconcile` from a world, with an empty trace. -/
def runReconcile {σ : Type} (c : Client σ) (Validate : Domain → Option GoError)
    (req : Request) (w : σ) : (Result × Option GoError) × Run σ :=
  Reconcile c Validate req ⟨w, []⟩

/-! ## Classes of adapter calls -/

/-- A write of the status subresource. -/
def Call.isStatusWrite : Call → Bool
  | .statusUpdate _ => true
  | _ => false

/-- An update of the entity itself (metadata and spec). -/
def Call.isEntityUpdate : Call → Bool
  | .updateDomain _ => true
  | _ => false

/-- A call to the record store: a query or a statement. -/
def Call.isRecordCall : Call → Bool
  | .queryRow _ _ => true
  | .exec _ _ => true
  | _ => false

/-- A call to the namespace adapter: get, create or delete. -/
def Call.isNamespaceCall : Call → Bool
  | .getNamespace _ => true
  | .createNamespace _ => true
  | .deleteNamespace _ => true
  | _ => false

/-- The entity with its status set, as `updateDomainStatus` sends it. -/
def withValid (d : Domain) (v : Bool) : Domain :=
  { d with Status := { d.Status with Valid := v } }

/-- The namespace object that `createNamespaceForDomain` creates. -/
def namespaceFor (id : String) : Namespace :=
  { Name := id,
    Labels := [("platform.com/domain", id), ("platform.com/managed-by", "domain-operator")] }

/-- The statement `createOrUpdateDomain` runs for an operation. -/
def statementOf (op : String) : String :=
  if op = "create" then insertSQL else updateSQL

/-- The arguments of the INSERT and the UPDATE of an entity. -/
def recordArgs (d : Domain) : List SqlArg :=
  [.text d.Spec.DomainID, .textArray d.Spec.Environments]

/-! ## Concrete entities and worlds -/

/-- The request for entity `teamA` in namespace `default`. -/
def reqA : Request := ⟨⟨"default", "teamA"⟩⟩

/-- A validator that accepts every entity. -/
def acceptAll : Domain → Option GoError := fun _ => none

/-- Entity `teamA` as first declared: no finalizer, not being deleted. -/
def dFresh : Domain := ⟨"default", "teamA", [], none, ⟨"teamA", ["dev"]⟩, ⟨false⟩⟩

/-- Entity `teamA` with the finalizer, not being deleted. -/
def dActive : Domain :=
  ⟨"default", "teamA", [domainFinalizer], none, ⟨"teamA", ["dev"]⟩, ⟨false⟩⟩

/-- Entity `teamA` with the finalizer, being deleted. -/
def dTerminating : Domain :=
  ⟨"default", "teamA", [domainFinalizer], some 1, ⟨"teamA", ["dev"]⟩, ⟨true⟩⟩

/-- An entity named `teamA` whose `spec.id` is `teamB`, with the finalizer. -/
def dMismatch : Domain :=
  ⟨"default", "teamA", [domainFinalizer], none, ⟨"teamB", ["dev"]⟩, ⟨true⟩⟩

/-- An entity named `teamA` whose `spec.id` is `teamB`, without the finalizer
and with status valid. -/
def dMismatchFresh : Domain :=
  ⟨"default", "teamA", [], none, ⟨"teamB", ["dev"]⟩, ⟨true⟩⟩

/-- An entity named `teamA` whose `spec.id` is `teamB`, being deleted. -/
def dMismatchTerminating : Domain :=
  ⟨"default", "teamA", [domainFinalizer], some 1, ⟨"teamB", ["dev"]⟩, ⟨true⟩⟩

/-- Entity `teamA` being deleted, holding only the finalizer of another
controller. -/
def dTerminatingUnmarked : Domain :=
  ⟨"default", "teamA", ["other.example.com/finalizer"], some 1, ⟨"teamA", ["dev"]⟩, ⟨true⟩⟩

/-- A world that holds one entity and nothing else. -/
def worldOf (d : Domain) : World := ⟨[d], [], [], []⟩

/-- A world with one entity, its record `teamA` and its namespace `teamA`. -/
def worldSynced (d : Domain) : World :=
  ⟨[d], [namespaceFor "teamA"], [⟨"teamA", ["dev"]⟩], []⟩

/-- An adapter failure that is not a NotFound. -/
def errBoom : GoError := .mk "connection refused" false

/-- A world where the lookup of the namespace fails: the fetch and the DELETE
go through, the third call fails with `errBoom`. -/
def worldGetFails : World :=
  ⟨[dTerminating], [namespaceFor "teamA"], [⟨"teamA", ["dev"]⟩], [none, none, some errBoom]⟩

/-- A world where the DELETE of the record fails with `errBoom`. -/
def worldExecFails : World :=
  ⟨[dTerminating], [namespaceFor "teamA"], [⟨"teamA", ["dev"]⟩], [none, some errBoom]⟩

/-- Entity `teamA` with the finalizer, its environments now `dev` and `prod`. -/
def dUpdated : Domain :=
  ⟨"default", "teamA", [domainFinalizer], none, ⟨"teamA", ["dev", "prod"]⟩, ⟨true⟩⟩

/-- A world where the DELETE of the record of `teamA` fails with `errBoom`
while the namespace `teamA` exists. -/
def worldDeleteFails : World :=
  ⟨[dTerminating], [namespaceFor "teamA"], [⟨"teamA", ["dev"]⟩], [some errBoom]⟩

/-- A world where the namespace `teamA` exists and its deletion answers
NotFound: the DELETE of the record and the lookup go through. -/
def worldDeleteNotFound : World :=
  ⟨[dTerminating], [namespaceFor "teamA"], [], [none, none, some World.errNotFound]⟩

/-- Scenario E: `teamA` under deletion, its record already absent, its namespace
still there. -/
def worldRecordGone : World := ⟨[dTerminating], [namespaceFor "teamA"], [], []⟩

/-- A world where the query of the record fails with `errBoom`, after the
fetch of entity `teamA`. -/
def worldQueryFails : World := ⟨[dActive], [], [], [none, some errBoom]⟩

/-! ## Step lemmas: each method in terms of the adapter answers -/

theorem containsFinalizer_addFinalizer (d : Domain) (f : String) :
    ContainsFinalizer (AddFinalizer d f) f = true := by
  unfold AddFinalizer ContainsFinalizer
  by_cases h : (d.Finalizers.any fun e => e == f) = true
  · simp only [h, if_true]
  · simp [h]

theorem containsFinalizer_removeFinalizer (d : Domain) (f : String) :
    ContainsFinalizer (RemoveFinalizer d f) f = false := by
  simp [RemoveFinalizer, ContainsFinalizer]

theorem removeFinalizer_name (d : Domain) (f : String) :
    (RemoveFinalizer d f).Name = d.Name := rfl

theorem updateDomainStatus_eq {σ : Type} (c : Client σ) (d : Domain) (v : Bool) (s : Run σ) :
    updateDomainStatus c d v s =
      (({}, (c.StatusUpdate (withValid d v) s.world).1),
        ⟨(c.StatusUpdate (withValid d v) s.world).2,
          s.trace ++ [⟨.statusUpdate (withValid d v),
            (c.StatusUpdate (withValid d v) s.world).1⟩]⟩) := by
  unfold updateDomainStatus callStatusUpdate withValid
  rcases h : c.StatusUpdate { d with Status := { d.Status with Valid := v } } s.world
    with ⟨_ | e, w2⟩ <;> simp [h]

theorem deleteDomainFromDB_eq {σ : Type} (c : Client σ) (n : String) (s : Run σ) :
    deleteDomainFromDB c n s =
      ((c.Exec deleteSQL [.text n] s.world).1,
        ⟨(c.Exec deleteSQL [.text n] s.world).2,
          s.trace ++ [⟨.exec deleteSQL [.text n], (c.Exec deleteSQL [.text n] s.world).1⟩]⟩) := by
  unfold deleteDomainFromDB DeleteDomain callExec
  rcases h : c.Exec deleteSQL [.text n] s.world with ⟨_ | e, w2⟩ <;> simp [h]

theorem deleteNamespace_absent {σ : Type} (c : Client σ) (n : String) (s : Run σ)
    (e : GoError) (w2 : σ) (h : c.GetNamespace ⟨"", n⟩ s.world = (.error e, w2))
    (hnf : IsNotFound e = true) :
    deleteNamespaceForDomain c n s =
      (none, ⟨w2, s.trace ++ [⟨.getNamespace ⟨"", n⟩, some e⟩]⟩) := by
  simp [deleteNamespaceForDomain, callGetNamespace, h, hnf, errOf]

theorem deleteNamespace_getFails {σ : Type} (c : Client σ) (n : String) (s : Run σ)
    (e : GoError) (w2 : σ) (h : c.GetNamespace ⟨"", n⟩ s.world = (.error e, w2))
    (hnf : IsNotFound e = false) :
    deleteNamespaceForDomain c n s =
      (some (ErrorfW ("failed to get namespace " ++ n ++ " for deletion: ") e),
        ⟨w2, s.trace ++ [⟨.getNamespace ⟨"", n⟩, some e⟩]⟩) := by
  simp [deleteNamespaceForDomain, callGetNamespace, h, hnf, errOf]

theorem deleteNamespace_deleteFails {σ : Type} (c : Client σ) (n : String) (s : Run σ)
    (ns : Namespace) (e : GoError) (w2 w3 : σ)
    (h : c.GetNamespace ⟨"", n⟩ s.world = (.ok ns, w2))
    (h2 : c.DeleteNamespace ns w2 = (some e, w3)) :
    deleteNamespaceForDomain c n s =
      (some (ErrorfW ("failed to delete namespace " ++ n ++ ": ") e),
        ⟨w3, s.trace ++ [⟨.getNamespace ⟨"", n⟩, none⟩, ⟨.deleteNamespace ns, some e⟩]⟩) := by
  simp [deleteNamespaceForDomain, callGetNamespace, callDeleteNamespace, h, h2, errOf]

theorem deleteNamespace_deleted {σ : Type} (c : Client σ) (n : String) (s : Run σ)
    (ns : Namespace) (w2 w3 : σ)
    (h : c.GetNamespace ⟨"", n⟩ s.world = (.ok ns, w2))
    (h2 : c.DeleteNamespace ns w2 = (none, w3)) :
    deleteNamespaceForDomain c n s =
      (none,
        ⟨w3, s.trace ++ [⟨.getNamespace ⟨"", n⟩, none⟩, ⟨.deleteNamespace ns, none⟩]⟩) := by
  simp [deleteNamespaceForDomain, callGetNamespace, callDeleteNamespace, h, h2, errOf]

theorem finalize_recordFails {σ : Type} (c : Client σ) (d : Domain) (s : Run σ)
    (e : GoError) (w2 : σ) (h : c.Exec deleteSQL [.text d.Name] s.world = (some e, w2)) :
    finalizeDomain c d s =
      (some e, ⟨w2, s.trace ++ [⟨.exec deleteSQL [.text d.Name], some e⟩]⟩) := by
  simp [finalizeDomain, deleteDomainFromDB_eq, h]

theorem finalize_recordDeleted {σ : Type} (c : Client σ) (d : Domain) (s : Run σ)
    (w2 : σ) (h : c.Exec deleteSQL [.text d.Name] s.world = (none, w2)) :
    finalizeDomain c d s =
      deleteNamespaceForDomain c d.Name
        ⟨w2, s.trace ++ [⟨.exec deleteSQL [.text d.Name], none⟩]⟩ := by
  simp only [finalizeDomain, deleteDomainFromDB_eq, h]
  generalize deleteNamespaceForDomain c d.Name _ = x
  rcases x with ⟨_ | e, s2⟩ <;> rfl

theorem createNamespace_exists {σ : Type} (c : Client σ) (d : Domain) (s : Run σ)
    (ns : Namespace) (w2 : σ)
    (h : c.GetNamespace ⟨"", d.Spec.DomainID⟩ s.world = (.ok ns, w2)) :
    createNamespaceForDomain c d s =
      (none, ⟨w2, s.trace ++ [⟨.getNamespace ⟨"", d.Spec.DomainID⟩, none⟩]⟩) := by
  simp [createNamespaceForDomain, callGetNamespace, h, errOf]

theorem createNamespace_getFails {σ : Type} (c : Client σ) (d : Domain) (s : Run σ)
    (e : GoError) (w2 : σ)
    (h : c.GetNamespace ⟨"", d.Spec.DomainID⟩ s.world = (.error e, w2))
    (hnf : IsNotFound e = false) :
    createNamespaceForDomain c d s =
      (some (ErrorfW ("failed to get namespace " ++ d.Spec.DomainID ++ ": ") e),
        ⟨w2, s.trace ++ [⟨.getNamespace ⟨"", d.Spec.DomainID⟩, some e⟩]⟩) := by
  simp [createNamespaceForDomain, callGetNamespace, h, hnf, errOf]

theorem createNamespace_createFails {σ : Type} (c : Client σ) (d : Domain) (s : Run σ)
    (e e2 : GoError) (w2 w3 : σ)
    (h : c.GetNamespace ⟨"", d.Spec.DomainID⟩ s.world = (.error e, w2))
    (hnf : IsNotFound e = true)
    (h2 : c.CreateNamespace (namespaceFor d.Spec.DomainID) w2 = (some e2, w3)) :
    createNamespaceForDomain c d s =
      (some (ErrorfW ("failed to create namespace for domain " ++ d.Spec.DomainID ++ ": ") e2),
        ⟨w3, s.trace ++ [⟨.getNamespace ⟨"", d.Spec.DomainID⟩, some e⟩,
          ⟨.createNamespace (namespaceFor d.Spec.DomainID), some e2⟩]⟩) := by
  unfold namespaceFor at h2
  simp [createNamespaceForDomain, callGetNamespace, callCreateNamespace, h, hnf, h2, errOf,
    namespaceFor]

theorem createNamespace_created {σ : Type} (c : Client σ) (d : Domain) (s : Run σ)
    (e : GoError) (w2 w3 : σ)
    (h : c.GetNamespace ⟨"", d.Spec.DomainID⟩ s.world = (.error e, w2))
    (hnf : IsNotFound e = true)
    (h2 : c.CreateNamespace (namespaceFor d.Spec.DomainID) w2 = (none, w3)) :
    createNamespaceForDomain c d s =
      (none,
        ⟨w3, s.trace ++ [⟨.getNamespace ⟨"", d.Spec.DomainID⟩, some e⟩,
          ⟨.createNamespace (namespaceFor d.Spec.DomainID), none⟩]⟩) := by
  unfold namespaceFor at h2
  simp [createNamespaceForDomain, callGetNamespace, callCreateNamespace, h, hnf, h2, errOf,
    namespaceFor]

theorem createOrUpdate_recordFails {σ : Type} (c : Client σ) (d : Domain) (op : String)
    (s : Run σ) (e : GoError) (w2 : σ)
    (h : c.Exec (if op = "create" then insertSQL else updateSQL)
      [.text d.Spec.DomainID, .textArray d.Spec.Environments] s.world = (some e, w2)) :
    createOrUpdateDomain c d op s =
      (some e, ⟨w2, s.trace ++ [⟨.exec (if op = "create" then insertSQL else updateSQL)
        [.text d.Spec.DomainID, .textArray d.Spec.Environments], some e⟩]⟩) := by
  by_cases hop : op = "create" <;>
    simp_all [createOrUpdateDomain, CreateDomain, UpdateDomain, callExec]

theorem createOrUpdate_recordWritten {σ : Type} (c : Client σ) (d : Domain) (op : String)
    (s : Run σ) (w2 : σ)
    (h : c.Exec (if op = "create" then insertSQL else updateSQL)
      [.text d.Spec.DomainID, .textArray d.Spec.Environments] s.world = (none, w2)) :
    createOrUpdateDomain c d op s =
      createNamespaceForDomain c d
        ⟨w2, s.trace ++ [⟨.exec (if op = "create" then insertSQL else updateSQL)
          [.text d.Spec.DomainID, .textArray d.Spec.Environments], none⟩]⟩ := by
  by_cases hop : op = "create"
  · simp only [hop, if_true] at h ⊢
    simp only [createOrUpdateDomain, CreateDomain, callExec, if_true, h]
    generalize createNamespaceForDomain c d _ = x
    rcases x with ⟨_ | e, s2⟩ <;> rfl
  · simp only [hop, if_false] at h ⊢
    simp only [createOrUpdateDomain, UpdateDomain, callExec, hop, if_false, h]
    generalize createNamespaceForDomain c d _ = x
    rcases x with ⟨_ | e, s2⟩ <;> rfl

theorem getDomain_found {σ : Type} (c : Client σ) (id : String) (s : Run σ)
    (r : DomainSpec) (w2 : σ) (h : c.QueryRow selectSQL [.text id] s.world = (.ok r, w2)) :
    GetDomain c id s =
      ((r, none), ⟨w2, s.trace ++ [⟨.queryRow selectSQL [.text id], none⟩]⟩) := by
  simp [GetDomain, callQueryRow, h, errOf]

theorem getDomain_noRows {σ : Type} (c : Client σ) (id : String) (s : Run σ)
    (e : GoError) (w2 : σ) (h : c.QueryRow selectSQL [.text id] s.world = (.error e, w2))
    (he : e.Error = "no rows in result set") :
    GetDomain c id s =
      ((⟨"", []⟩, none), ⟨w2, s.trace ++ [⟨.queryRow selectSQL [.text id], some e⟩]⟩) := by
  simp [GetDomain, callQueryRow, h, errOf, he]

theorem getDomain_fails {σ : Type} (c : Client σ) (id : String) (s : Run σ)
    (e : GoError) (w2 : σ) (h : c.QueryRow selectSQL [.text id] s.world = (.error e, w2))
    (he : e.Error ≠ "no rows in result set") :
    GetDomain c id s =
      ((⟨"", []⟩, some e), ⟨w2, s.trace ++ [⟨.queryRow selectSQL [.text id], some e⟩]⟩) := by
  simp [GetDomain, callQueryRow, h, errOf, he]

/-- The five ways `finalizeDomain` can go, by the answers of the adapters. -/
theorem finalize_cases {σ : Type} (c : Client σ) (d : Domain) (s : Run σ) :
    (∃ e w2, c.Exec deleteSQL [.text d.Name] s.world = (some e, w2) ∧
      finalizeDomain c d s =
        (some e, ⟨w2, s.trace ++ [⟨.exec deleteSQL [.text d.Name], some e⟩]⟩)) ∨
    (∃ w2 e w3, c.Exec deleteSQL [.text d.Name] s.world = (none, w2) ∧
      c.GetNamespace ⟨"", d.Name⟩ w2 = (.error e, w3) ∧ IsNotFound e = true ∧
      finalizeDomain c d s =
        (none, ⟨w3, s.trace ++ [⟨.exec deleteSQL [.text d.Name], none⟩,
          ⟨.getNamespace ⟨"", d.Name⟩, some e⟩]⟩)) ∨
    (∃ w2 e w3, c.Exec deleteSQL [.text d.Name] s.world = (none, w2) ∧
      c.GetNamespace ⟨"", d.Name⟩ w2 = (.error e, w3) ∧ IsNotFound e = false ∧
      finalizeDomain c d s =
        (some (ErrorfW ("failed to get namespace " ++ d.Name ++ " for deletion: ") e),
          ⟨w3, s.trace ++ [⟨.exec deleteSQL [.text d.Name], none⟩,
            ⟨.getNamespace ⟨"", d.Name⟩, some e⟩]⟩)) ∨
    (∃ w2 ns w3 e w4, c.Exec deleteSQL [.text d.Name] s.world = (none, w2) ∧
      c.GetNamespace ⟨"", d.Name⟩ w2 = (.ok ns, w3) ∧
      c.DeleteNamespace ns w3 = (some e, w4) ∧
      finalizeDomain c d s =
        (some (ErrorfW ("failed to delete namespace " ++ d.Name ++ ": ") e),
          ⟨w4, s.trace ++ [⟨.exec deleteSQL [.text d.Name], none⟩,
            ⟨.getNamespace ⟨"", d.Name⟩, none⟩, ⟨.deleteNamespace ns, some e⟩]⟩)) ∨
    (∃ w2 ns w3 w4, c.Exec deleteSQL [.text d.Name] s.world = (none, w2) ∧
      c.GetNamespace ⟨"", d.Name⟩ w2 = (.ok ns, w3) ∧
      c.DeleteNamespace ns w3 = (none, w4) ∧
      finalizeDomain c d s =
        (none, ⟨w4, s.trace ++ [⟨.exec deleteSQL [.text d.Name], none⟩,
          ⟨.getNamespace ⟨"", d.Name⟩, none⟩, ⟨.deleteNamespace ns, none⟩]⟩)) := by
  rcases h1 : c.Exec deleteSQL [.text d.Name] s.world with ⟨_ | e1, w2⟩
  · right
    rw [finalize_recordDeleted c d s w2 h1]
    rcases h2 : c.GetNamespace ⟨"", d.Name⟩ w2 with ⟨e2 | ns, w3⟩
    · cases hnf : IsNotFound e2
      · right; left
        refine ⟨w2, e2, w3, rfl, h2, hnf, ?_⟩
        rw [deleteNamespace_getFails c d.Name _ e2 w3 h2 hnf]
        simp
      · left
        refine ⟨w2, e2, w3, rfl, h2, hnf, ?_⟩
        rw [deleteNamespace_absent c d.Name _ e2 w3 h2 hnf]
        simp
    · right; right
      rcases h3 : c.DeleteNamespace ns w3 with ⟨_ | e3, w4⟩
      · right
        refine ⟨w2, ns, w3, w4, rfl, h2, h3, ?_⟩
        rw [deleteNamespace_deleted c d.Name _ ns w3 w4 h2 h3]
        simp
      · left
        refine ⟨w2, ns, w3, e3, w4, rfl, h2, h3, ?_⟩
        rw [deleteNamespace_deleteFails c d.Name _ ns e3 w3 w4 h2 h3]
        simp
  · left
    exact ⟨e1, w2, rfl, finalize_recordFails c d s e1 w2 h1⟩

/-- The body of `Reconcile` on a fetched entity that carries the finalizer and
is being deleted. -/
theorem reconcile_terminating {σ : Type} (c : Client σ)
    (Validate : Domain → Option GoError) (req : Request) (w w1 : σ) (d : Domain)
    (hget : c.GetDomain req.NamespacedName w = (.ok d, w1))
    (hfin : ContainsFinalizer d domainFinalizer = true)
    (hdel : IsZero d.DeletionTimestamp = false) :
    runReconcile c Validate req w =
      match finalizeDomain c d ⟨w1, [⟨.getDomain req.NamespacedName, none⟩]⟩ with
      | (some err, s2) => (({}, some err), s2)
      | (none, s2) =>
        (({}, (c.UpdateDomain (RemoveFinalizer d domainFinalizer) s2.world).1.map
            (ErrorfV "error removing finalizer ")),
          ⟨(c.UpdateDomain (RemoveFinalizer d domainFinalizer) s2.world).2,
            s2.trace ++ [⟨.updateDomain (RemoveFinalizer d domainFinalizer),
              (c.UpdateDomain (RemoveFinalizer d domainFinalizer) s2.world).1⟩]⟩) := by
  simp only [runReconcile, Reconcile, callGetDomain, hget, errOf, hfin, hdel, List.nil_append,
    Bool.not_true, Bool.not_false, if_true, Bool.false_eq_true, if_false, callUpdateDomain]
  rcases finalizeDomain c d ⟨w1, [⟨.getDomain req.NamespacedName, none⟩]⟩ with ⟨_ | e, s2⟩
  · rcases h : c.UpdateDomain (RemoveFinalizer d domainFinalizer) s2.world with ⟨_ | e, w3⟩ <;>
      simp [h]
  · rfl

/-- The body of `Reconcile` on a fetched entity that carries the finalizer, is
not being deleted, matches its dispatch key and passes validation. -/
theorem reconcile_active {σ : Type} (c : Client σ)
    (Validate : Domain → Option GoError) (req : Request) (w w1 : σ) (d : Domain)
    (hget : c.GetDomain req.NamespacedName w = (.ok d, w1))
    (hfin : ContainsFinalizer d domainFinalizer = true)
    (hdel : IsZero d.DeletionTimestamp = true)
    (hid : req.Name = d.Spec.DomainID)
    (hval : Validate d = none) :
    runReconcile c Validate req w =
      match syncDomainWithDatabase c d ⟨w1, [⟨.getDomain req.NamespacedName, none⟩]⟩ with
      | (some err, s2) => (({}, some err), s2)
      | (none, s2) => updateDomainStatus c d true s2 := by
  simp only [runReconcile, Reconcile, callGetDomain, hget, errOf, hfin, hdel, List.nil_append,
    Bool.not_true, if_true, Bool.false_eq_true, if_false, hid, bne_self_eq_false, hval]

/-- The body of `Reconcile` on a fetched entity that carries the finalizer, is
not being deleted and is rejected: by the dispatch key or by validation. -/
theorem reconcile_invalid {σ : Type} (c : Client σ)
    (Validate : Domain → Option GoError) (req : Request) (w w1 : σ) (d : Domain)
    (hget : c.GetDomain req.NamespacedName w = (.ok d, w1))
    (hfin : ContainsFinalizer d domainFinalizer = true)
    (hdel : IsZero d.DeletionTimestamp = true)
    (hbad : req.Name ≠ d.Spec.DomainID ∨ Validate d ≠ none) :
    runReconcile c Validate req w =
      (({}, (c.StatusUpdate (withValid d false) w1).1),
        ⟨(c.StatusUpdate (withValid d false) w1).2,
          [⟨.getDomain req.NamespacedName, none⟩,
           ⟨.statusUpdate (withValid d false), (c.StatusUpdate (withValid d false) w1).1⟩]⟩) := by
  by_cases hid : req.Name = d.Spec.DomainID
  · have hv : Validate d ≠ none := by
      rcases hbad with h | h
      · exact absurd hid h
      · exact h
    cases hval : Validate d with
    | none => exact absurd hval hv
    | some e =>
      simp [runReconcile, Reconcile, callGetDomain, hget, errOf, hfin, hdel, hid, hval,
        updateDomainStatus_eq]
  · simp [runReconcile, Reconcile, callGetDomain, hget, errOf, hfin, hdel, hid,
      updateDomainStatus_eq]

/-- The body of `Reconcile` on a fetched entity without the finalizer. -/
theorem reconcile_unmarked {σ : Type} (c : Client σ)
    (Validate : Domain → Option GoError) (req : Request) (w w1 : σ) (d : Domain)
    (hget : c.GetDomain req.NamespacedName w = (.ok d, w1))
    (hfin : ContainsFinalizer d domainFinalizer = false) :
    runReconcile c Validate req w =
      (({}, (c.UpdateDomain (AddFinalizer d domainFinalizer) w1).1),
        ⟨(c.UpdateDomain (AddFinalizer d domainFinalizer) w1).2,
          [⟨.getDomain req.NamespacedName, none⟩,
           ⟨.updateDomain (AddFinalizer d domainFinalizer),
             (c.UpdateDomain (AddFinalizer d domainFinalizer) w1).1⟩]⟩) := by
  simp [runReconcile, Reconcile, callGetDomain, callUpdateDomain, hget, errOf, hfin]

/-- The body of `Reconcile` when the entity cannot be fetched. -/
theorem reconcile_unfetched {σ : Type} (c : Client σ)
    (Validate : Domain → Option GoError) (req : Request) (w w1 : σ) (e : GoError)
    (hget : c.GetDomain req.NamespacedName w = (.error e, w1)) :
    runReconcile c Validate req w =
      (({}, if IsNotFound e then none else some e),
        ⟨w1, [⟨.getDomain req.NamespacedName, some e⟩]⟩) := by
  cases hnf : IsNotFound e <;>
    simp [runReconcile, Reconcile, callGetDomain, hget, errOf, hnf]

/-- The five ways `createOrUpdateDomain` can go, by the answers of the
adapters. -/
theorem createOrUpdate_cases {σ : Type} (c : Client σ) (d : Domain) (op : String)
    (s : Run σ) :
    (∃ e w2, c.Exec (statementOf op) (recordArgs d) s.world = (some e, w2) ∧
      createOrUpdateDomain c d op s =
        (some e, ⟨w2, s.trace ++ [⟨.exec (statementOf op) (recordArgs d), some e⟩]⟩)) ∨
    (∃ w2 ns w3, c.Exec (statementOf op) (recordArgs d) s.world = (none, w2) ∧
      c.GetNamespace ⟨"", d.Spec.DomainID⟩ w2 = (.ok ns, w3) ∧
      createOrUpdateDomain c d op s =
        (none, ⟨w3, s.trace ++ [⟨.exec (statementOf op) (recordArgs d), none⟩,
          ⟨.getNamespace ⟨"", d.Spec.DomainID⟩, none⟩]⟩)) ∨
    (∃ w2 e w3, c.Exec (statementOf op) (recordArgs d) s.world = (none, w2) ∧
      c.GetNamespace ⟨"", d.Spec.DomainID⟩ w2 = (.error e, w3) ∧ IsNotFound e = false ∧
      createOrUpdateDomain c d op s =
        (some (ErrorfW ("failed to get namespace " ++ d.Spec.DomainID ++ ": ") e),
          ⟨w3, s.trace ++ [⟨.exec (statementOf op) (recordArgs d), none⟩,
            ⟨.getNamespace ⟨"", d.Spec.DomainID⟩, some e⟩]⟩)) ∨
    (∃ w2 e w3 e2 w4, c.Exec (statementOf op) (recordArgs d) s.world = (none, w2) ∧
      c.GetNamespace ⟨"", d.Spec.DomainID⟩ w2 = (.error e, w3) ∧ IsNotFound e = true ∧
      c.CreateNamespace (namespaceFor d.Spec.DomainID) w3 = (some e2, w4) ∧
      createOrUpdateDomain c d op s =
        (some (ErrorfW ("failed to create namespace for domain " ++ d.Spec.DomainID ++ ": ")
            e2),
          ⟨w4, s.trace ++ [⟨.exec (statementOf op) (recordArgs d), none⟩,
            ⟨.getNamespace ⟨"", d.Spec.DomainID⟩, some e⟩,
            ⟨.createNamespace (namespaceFor d.Spec.DomainID), some e2⟩]⟩)) ∨
    (∃ w2 e w3 w4, c.Exec (statementOf op) (recordArgs d) s.world = (none, w2) ∧
      c.GetNamespace ⟨"", d.Spec.DomainID⟩ w2 = (.error e, w3) ∧ IsNotFound e = true ∧
      c.CreateNamespace (namespaceFor d.Spec.DomainID) w3 = (none, w4) ∧
      createOrUpdateDomain c d op s =
        (none,
          ⟨w4, s.trace ++ [⟨.exec (statementOf op) (recordArgs d), none⟩,
            ⟨.getNamespace ⟨"", d.Spec.DomainID⟩, some e⟩,
            ⟨.createNamespace (namespaceFor d.Spec.DomainID), none⟩]⟩)) := by
  unfold statementOf recordArgs
  rcases h1 : c.Exec (if op = "create" then insertSQL else updateSQL)
    [.text d.Spec.DomainID, .textArray d.Spec.Environments] s.world with ⟨_ | e1, w2⟩
  · right
    rw [createOrUpdate_recordWritten c d op s w2 h1]
    rcases h2 : c.GetNamespace ⟨"", d.Spec.DomainID⟩ w2 with ⟨e2 | ns, w3⟩
    · right
      cases hnf : IsNotFound e2
      · left
        refine ⟨w2, e2, w3, rfl, h2, hnf, ?_⟩
        rw [createNamespace_getFails c d _ e2 w3 h2 hnf]
        simp
      · right
        rcases h3 : c.CreateNamespace (namespaceFor d.Spec.DomainID) w3 with ⟨_ | e3, w4⟩
        · right
          refine ⟨w2, e2, w3, w4, rfl, h2, hnf, h3, ?_⟩
          rw [createNamespace_created c d _ e2 w3 w4 h2 hnf h3]
          simp
        · left
          refine ⟨w2, e2, w3, e3, w4, rfl, h2, hnf, h3, ?_⟩
          rw [createNamespace_createFails c d _ e2 e3 w3 w4 h2 hnf h3]
          simp
    · left
      refine ⟨w2, ns, w3, rfl, h2, ?_⟩
      rw [createNamespace_exists c d _ ns w3 h2]
      simp
  · left
    exact ⟨e1, w2, rfl, createOrUpdate_recordFails c d op s e1 w2 h1⟩

/-- The three ways `syncDomainWithDatabase` can go after the lookup: the
lookup fails, the record counts as absent, the record is there. -/
theorem sync_cases {σ : Type} (c : Client σ) (d : Domain) (s : Run σ) :
    (∃ e w2, c.QueryRow selectSQL [.text d.Spec.DomainID] s.world = (.error e, w2) ∧
      e.Error ≠ "no rows in result set" ∧
      syncDomainWithDatabase c d s =
        (some e, ⟨w2, s.trace ++ [⟨.queryRow selectSQL [.text d.Spec.DomainID], some e⟩]⟩)) ∨
    (∃ e w2, c.QueryRow selectSQL [.text d.Spec.DomainID] s.world = (.error e, w2) ∧
      e.Error = "no rows in result set" ∧
      syncDomainWithDatabase c d s =
        createOrUpdateDomain c d "create"
          ⟨w2, s.trace ++ [⟨.queryRow selectSQL [.text d.Spec.DomainID], some e⟩]⟩) ∨
    (∃ r w2, c.QueryRow selectSQL [.text d.Spec.DomainID] s.world = (.ok r, w2) ∧
      r.DomainID = "" ∧
      syncDomainWithDatabase c d s =
        createOrUpdateDomain c d "create"
          ⟨w2, s.trace ++ [⟨.queryRow selectSQL [.text d.Spec.DomainID], none⟩]⟩) ∨
    (∃ r w2, c.QueryRow selectSQL [.text d.Spec.DomainID] s.world = (.ok r, w2) ∧
      r.DomainID ≠ "" ∧
      syncDomainWithDatabase c d s =
        createOrUpdateDomain c d "update"
          ⟨w2, s.trace ++ [⟨.queryRow selectSQL [.text d.Spec.DomainID], none⟩]⟩) := by
  rcases h1 : c.QueryRow selectSQL [.text d.Spec.DomainID] s.world with ⟨e | r, w2⟩
  · by_cases he : e.Error = "no rows in result set"
    · right; left
      refine ⟨e, w2, rfl, he, ?_⟩
      simp [syncDomainWithDatabase, getDomain_noRows c _ s e w2 h1 he]
    · left
      refine ⟨e, w2, rfl, he, ?_⟩
      simp [syncDomainWithDatabase, getDomain_fails c _ s e w2 h1 he]
  · right; right
    by_cases hr : r.DomainID = ""
    · left
      refine ⟨r, w2, rfl, hr, ?_⟩
      simp [syncDomainWithDatabase, getDomain_found c _ s r w2 h1, hr]
    · right
      refine ⟨r, w2, rfl, hr, ?_⟩
      simp [syncDomainWithDatabase, getDomain_found c _ s r w2 h1, hr]

/-- Every call `createOrUpdateDomain` adds to the trace goes to the record
store or to the namespace adapter; when it returns no error, a statement and
the namespace step have returned no error. -/
theorem createOrUpdate_trace {σ : Type} (c : Client σ) (d : Domain) (op : String)
    (s : Run σ) :
    ∃ evs, (createOrUpdateDomain c d op s).2.trace = s.trace ++ evs ∧
      (∀ ev ∈ evs, ev.call = .exec (statementOf op) (recordArgs d) ∨
        ev.call.isNamespaceCall = true) ∧
      ((createOrUpdateDomain c d op s).1 = none →
        (⟨.exec (statementOf op) (recordArgs d), none⟩ ∈ evs ∧
          (⟨.getNamespace ⟨"", d.Spec.DomainID⟩, none⟩ ∈ evs ∨
            ⟨.createNamespace (namespaceFor d.Spec.DomainID), none⟩ ∈ evs))) := by
  rcases createOrUpdate_cases c d op s with
    ⟨e, w2, _, h⟩ | ⟨w2, ns, w3, _, _, h⟩ | ⟨w2, e, w3, _, _, _, h⟩ |
    ⟨w2, e, w3, e2, w4, _, _, _, _, h⟩ | ⟨w2, e, w3, w4, _, _, _, _, h⟩ <;>
  · rw [h]
    refine ⟨_, rfl, ?_, ?_⟩ <;> simp [Call.isNamespaceCall]

/-- Every call `syncDomainWithDatabase` adds to the trace goes to the record
store or to the namespace adapter; when it returns no error, an INSERT or an
UPDATE and the namespace step have returned no error. -/
theorem sync_trace {σ : Type} (c : Client σ) (d : Domain) (s : Run σ) :
    ∃ evs, (syncDomainWithDatabase c d s).2.trace = s.trace ++ evs ∧
      (∀ ev ∈ evs, ev.call.isRecordCall = true ∨ ev.call.isNamespaceCall = true) ∧
      ((syncDomainWithDatabase c d s).1 = none →
        ((⟨.exec insertSQL (recordArgs d), none⟩ ∈ evs ∨
            ⟨.exec updateSQL (recordArgs d), none⟩ ∈ evs) ∧
          (⟨.getNamespace ⟨"", d.Spec.DomainID⟩, none⟩ ∈ evs ∨
            ⟨.createNamespace (namespaceFor d.Spec.DomainID), none⟩ ∈ evs))) := by
  have key : ∀ (op : String) (q : Event) (w2 : σ), q.call.isRecordCall = true →
      (op = "create" ∨ op = "update") →
      ∃ evs, (createOrUpdateDomain c d op ⟨w2, s.trace ++ [q]⟩).2.trace = s.trace ++ evs ∧
      (∀ ev ∈ evs, ev.call.isRecordCall = true ∨ ev.call.isNamespaceCall = true) ∧
      ((createOrUpdateDomain c d op ⟨w2, s.trace ++ [q]⟩).1 = none →
        ((⟨.exec insertSQL (recordArgs d), none⟩ ∈ evs ∨
            ⟨.exec updateSQL (recordArgs d), none⟩ ∈ evs) ∧
          (⟨.getNamespace ⟨"", d.Spec.DomainID⟩, none⟩ ∈ evs ∨
            ⟨.createNamespace (namespaceFor d.Spec.DomainID), none⟩ ∈ evs))) := by
    intro op q w2 hq hop
    obtain ⟨evs, htr, hall, hok⟩ := createOrUpdate_trace c d op ⟨w2, s.trace ++ [q]⟩
    refine ⟨q :: evs, ?_, ?_, ?_⟩
    · rw [htr]; simp
    · intro ev hev
      rcases List.mem_cons.1 hev with rfl | hev
      · exact Or.inl hq
      · rcases hall ev hev with h | h
        · left; rw [h]; rfl
        · exact Or.inr h
    · intro hnone
      obtain ⟨hx, hn⟩ := hok hnone
      have hst : statementOf op = insertSQL ∨ statementOf op = updateSQL := by
        rcases hop with rfl | rfl
        · left; rfl
        · right; simp [statementOf]
      refine ⟨?_, ?_⟩
      · rcases hst with h | h
        · left; rw [h] at hx; exact List.mem_cons_of_mem _ hx
        · right; rw [h] at hx; exact List.mem_cons_of_mem _ hx
      · rcases hn with h | h
        · exact Or.inl (List.mem_cons_of_mem _ h)
        · exact Or.inr (List.mem_cons_of_mem _ h)
  rcases sync_cases c d s with ⟨e, w2, _, _, h⟩ | ⟨e, w2, _, _, h⟩ | ⟨r, w2, _, _, h⟩ |
    ⟨r, w2, _, _, h⟩
  · rw [h]
    refine ⟨_, rfl, ?_, ?_⟩ <;> simp [Call.isRecordCall]
  · rw [h]; exact key "create" _ w2 rfl (Or.inl rfl)
  · rw [h]; exact key "create" _ w2 rfl (Or.inl rfl)
  · rw [h]; exact key "update" _ w2 rfl (Or.inr rfl)

/-- Every call `finalizeDomain` adds to the trace is the DELETE of the record,
the lookup of the namespace or its deletion; when it returns no error, the
DELETE returned no error and the namespace was found absent or was deleted. -/
theorem finalize_trace {σ : Type} (c : Client σ) (d : Domain) (s : Run σ) :
    ∃ evs, (finalizeDomain c d s).2.trace = s.trace ++ evs ∧
      (∀ ev ∈ evs, ev.call = .exec deleteSQL [.text d.Name] ∨
        ev.call = .getNamespace ⟨"", d.Name⟩ ∨ ∃ ns, ev.call = .deleteNamespace ns) ∧
      ((finalizeDomain c d s).1 = none →
        (⟨.exec deleteSQL [.text d.Name], none⟩ ∈ evs ∧
          ((∃ e, ⟨.getNamespace ⟨"", d.Name⟩, some e⟩ ∈ evs ∧ IsNotFound e = true) ∨
            (⟨.getNamespace ⟨"", d.Name⟩, none⟩ ∈ evs ∧
              ∃ ns, ⟨.deleteNamespace ns, none⟩ ∈ evs)))) := by
  rcases finalize_cases c d s with
    ⟨e, w2, _, h⟩ | ⟨w2, e, w3, _, _, hnf, h⟩ | ⟨w2, e, w3, _, _, _, h⟩ |
    ⟨w2, ns, w3, e, w4, _, _, _, h⟩ | ⟨w2, ns, w3, w4, _, _, _, h⟩
  · rw [h]; refine ⟨_, rfl, ?_, ?_⟩ <;> simp
  · rw [h]; refine ⟨_, rfl, ?_, ?_⟩
    · simp
    · intro _
      refine ⟨by simp, Or.inl ⟨e, by simp, hnf⟩⟩
  · rw [h]; refine ⟨_, rfl, ?_, ?_⟩ <;> simp
  · rw [h]; refine ⟨_, rfl, ?_, ?_⟩ <;> simp
  · rw [h]; refine ⟨_, rfl, ?_, ?_⟩
    · simp
    · intro _
      refine ⟨by simp, Or.inr ⟨by simp, ns, by simp⟩⟩

/-- An element that closes a list and occurs nowhere before is its last
occurrence: the only way to split the list at it. -/
theorem split_at_last {α : Type} (t0 : List α) (u x : α) (pre post : List α)
    (h : t0 ++ [u] = pre ++ x :: post) (hx : x ∉ t0) :
    pre = t0 ∧ x = u ∧ post = [] := by
  induction t0 generalizing pre with
  | nil =>
    cases pre with
    | nil =>
      simp only [List.nil_append, List.cons.injEq] at h
      exact ⟨rfl, h.1.symm, h.2.symm⟩
    | cons p pre2 =>
      simp only [List.nil_append, List.cons_append, List.cons.injEq] at h
      have := h.2
      cases pre2 <;> simp at this
  | cons a t ih =>
    cases pre with
    | nil =>
      simp only [List.cons_append, List.nil_append, List.cons.injEq] at h
      exact absurd (h.1 ▸ List.mem_cons_self a t) hx
    | cons p pre2 =>
      simp only [List.cons_append, List.cons.injEq] at h
      obtain ⟨h1, h2, h3⟩ := ih pre2 h.2 (fun hm => hx (List.mem_cons_of_mem _ hm))
      exact ⟨by rw [h.1, h1], h2, h3⟩

/-- An Update of the entity is none of the calls of finalization or of
synchronization. -/
theorem update_not_among (key : NamespacedName) (evs : List Event)
    (hall : ∀ ev ∈ evs, ev.call.isRecordCall = true ∨ ev.call.isNamespaceCall = true)
    (d : Domain) (e : Option GoError) :
    (⟨.updateDomain d, e⟩ : Event) ∉ ([⟨.getDomain key, none⟩] : List Event) ++ evs := by
  intro hmem
  rcases List.mem_append.1 hmem with h | h
  · simp at h
  · rcases hall _ h with h2 | h2 <;> simp [Call.isRecordCall, Call.isNamespaceCall] at h2

/-- A status write is none of the calls of finalization or of
synchronization. -/
theorem status_not_among (key : NamespacedName) (evs : List Event)
    (hall : ∀ ev ∈ evs, ev.call.isRecordCall = true ∨ ev.call.isNamespaceCall = true)
    (ev : Event) (hmem : ev ∈ ([⟨.getDomain key, none⟩] : List Event) ++ evs) :
    ev.call.isStatusWrite = false := by
  rcases List.mem_append.1 hmem with h | h
  · simp only [List.mem_singleton] at h
    subst h; rfl
  · rcases hall _ h with h2 | h2 <;> cases hc : ev.call <;>
      simp [hc, Call.isRecordCall, Call.isNamespaceCall, Call.isStatusWrite] at h2 ⊢

/-- The calls of finalization go to the record store or the namespace
adapter. -/
theorem finalize_calls_classified (d : Domain) (evs : List Event)
    (hall : ∀ ev ∈ evs, ev.call = .exec deleteSQL [.text d.Name] ∨
        ev.call = .getNamespace ⟨"", d.Name⟩ ∨ ∃ ns, ev.call = .deleteNamespace ns) :
    ∀ ev ∈ evs, ev.call.isRecordCall = true ∨ ev.call.isNamespaceCall = true := by
  intro ev hev
  rcases hall ev hev with h | h | ⟨ns, h⟩ <;> rw [h] <;>
    simp [Call.isRecordCall, Call.isNamespaceCall]

/-! ## The in-memory world: what each adapter call does -/

theorem nextFault_frame (w : World) :
    (World.nextFault w).2.rows = w.rows ∧ (World.nextFault w).2.namespaces = w.namespaces ∧
      (World.nextFault w).2.domains = w.domains := by
  unfold World.nextFault
  split <;> simp

theorem nextFault_none (w : World) (h : w.faults = []) : World.nextFault w = (none, w) := by
  unfold World.nextFault
  rw [h]

theorem statements_distinct :
    updateSQL ≠ insertSQL ∧ deleteSQL ≠ insertSQL ∧ deleteSQL ≠ updateSQL := by
  decide

/-- A query leaves the rows and the namespaces as they are; a row it returns
is a row of the table with the `id` asked for. -/
theorem queryRow_spec (id : String) (w w2 : World) (r : Except GoError DomainSpec)
    (h : World.client.QueryRow selectSQL [.text id] w = (r, w2)) :
    w2.rows = w.rows ∧ w2.namespaces = w.namespaces ∧
      ∀ row, r = .ok row → row ∈ w.rows ∧ row.DomainID = id := by
  change World.queryRow selectSQL [.text id] w = (r, w2) at h
  obtain ⟨hr, hn, _⟩ := nextFault_frame w
  unfold World.queryRow at h
  rcases hf : World.nextFault w with ⟨_ | f, w1⟩
  · rw [hf] at h hr hn
    simp only [if_true] at h hr hn
    cases hfind : w1.rows.find? fun r => r.DomainID == id with
    | none =>
      rw [hfind] at h
      simp only [Prod.mk.injEq] at h
      obtain ⟨h1, h2⟩ := h
      subst h1 h2
      exact ⟨hr, hn, fun row hrow => by cases hrow⟩
    | some row0 =>
      rw [hfind] at h
      simp only [Prod.mk.injEq] at h
      obtain ⟨h1, h2⟩ := h
      subst h1 h2
      refine ⟨hr, hn, fun row hrow => ?_⟩
      simp only [Except.ok.injEq] at hrow
      subst hrow
      have hm := List.mem_of_find?_eq_some hfind
      have hp := List.find?_some hfind
      rw [hr] at hm
      exact ⟨hm, by simpa using hp⟩
  · rw [hf] at h hr hn
    simp only [Prod.mk.injEq] at h
    obtain ⟨h1, h2⟩ := h
    subst h1 h2
    exact ⟨hr, hn, fun row hrow => by cases hrow⟩

/-- An INSERT that returns no error found no row of that `id` and appends
one. -/
theorem exec_insert_spec (id : String) (envs : List String) (w w2 : World)
    (h : World.client.Exec insertSQL [.text id, .textArray envs] w = (none, w2)) :
    (∀ r ∈ w.rows, r.DomainID ≠ id) ∧ w2.rows = w.rows ++ [⟨id, envs⟩] ∧
      w2.namespaces = w.namespaces := by
  change World.exec insertSQL [.text id, .textArray envs] w = (none, w2) at h
  obtain ⟨hr, hn, _⟩ := nextFault_frame w
  unfold World.exec at h
  rcases hf : World.nextFault w with ⟨_ | f, w1⟩
  · rw [hf] at h hr hn
    simp only [if_true] at h hr hn
    by_cases hany : (w1.rows.any fun r => r.DomainID == id) = true
    · rw [if_pos hany] at h
      simp at h
    · rw [if_neg hany] at h
      simp only [Prod.mk.injEq, true_and] at h
      subst h
      refine ⟨?_, by simp [hr], hn⟩
      intro r hrmem heq
      apply hany
      rw [← hr] at hrmem
      exact List.any_eq_true.2 ⟨r, hrmem, by simpa using heq⟩
  · rw [hf] at h
    simp at h

/-- An UPDATE that returns no error sets the environments of every row of
that `id` and leaves the other rows as they are. -/
theorem exec_update_spec (id : String) (envs : List String) (w w2 : World)
    (h : World.client.Exec updateSQL [.text id, .textArray envs] w = (none, w2)) :
    w2.rows = (w.rows.map fun r =>
        if r.DomainID == id then { r with Environments := envs } else r) ∧
      w2.namespaces = w.namespaces := by
  change World.exec updateSQL [.text id, .textArray envs] w = (none, w2) at h
  obtain ⟨hr, hn, _⟩ := nextFault_frame w
  unfold World.exec at h
  rcases hf : World.nextFault w with ⟨_ | f, w1⟩
  · rw [hf] at h hr hn
    simp only [statements_distinct.1, if_false, if_true, Prod.mk.injEq, true_and] at h hr hn
    subst h
    exact ⟨by simp [hr], hn⟩
  · rw [hf] at h
    simp at h

/-- A statement leaves the namespaces as they are. -/
theorem exec_namespaces (sql : String) (args : List SqlArg) (w : World) :
    (World.client.Exec sql args w).2.namespaces = w.namespaces := by
  change (World.exec sql args w).2.namespaces = w.namespaces
  obtain ⟨_, hn, _⟩ := nextFault_frame w
  unfold World.exec
  rcases hf : World.nextFault w with ⟨_ | f, w1⟩
  · rw [hf] at hn
    simp only [] at hn ⊢
    repeat' split
    all_goals simp [hn]
  · rw [hf] at hn
    exact hn

/-- A lookup of a namespace leaves the rows and the namespaces as they are; a namespace
it returns is stored under the name asked for. -/
theorem getNamespace_spec (key : NamespacedName) (w w2 : World)
    (r : Except GoError Namespace)
    (h : World.client.GetNamespace key w = (r, w2)) :
    w2.rows = w.rows ∧ w2.namespaces = w.namespaces ∧
      ∀ ns, r = .ok ns → ns ∈ w.namespaces ∧ ns.Name = key.Name := by
  change World.getNamespace key w = (r, w2) at h
  obtain ⟨hr, hn, _⟩ := nextFault_frame w
  unfold World.getNamespace at h
  rcases hf : World.nextFault w with ⟨_ | f, w1⟩
  · rw [hf] at h hr hn
    simp only [] at h hr hn
    cases hfind : w1.namespaces.find? fun n => n.Name == key.Name with
    | none =>
      rw [hfind] at h
      simp only [Prod.mk.injEq] at h
      obtain ⟨h1, h2⟩ := h
      subst h1 h2
      exact ⟨hr, hn, fun ns hns => by cases hns⟩
    | some ns0 =>
      rw [hfind] at h
      simp only [Prod.mk.injEq] at h
      obtain ⟨h1, h2⟩ := h
      subst h1 h2
      refine ⟨hr, hn, fun ns hns => ?_⟩
      simp only [Except.ok.injEq] at hns
      subst hns
      have hm := List.mem_of_find?_eq_some hfind
      have hp := List.find?_some hfind
      rw [hn] at hm
      exact ⟨hm, by simpa using hp⟩
  · rw [hf] at h hr hn
    simp only [Prod.mk.injEq] at h
    obtain ⟨h1, h2⟩ := h
    subst h1 h2
    exact ⟨hr, hn, fun ns hns => by cases hns⟩

/-- A creation of a namespace that returns no error found no namespace of
that name and appends the new one. -/
theorem createNamespace_spec (ns : Namespace) (w w2 : World)
    (h : World.client.CreateNamespace ns w = (none, w2)) :
    (∀ n ∈ w.namespaces, n.Name ≠ ns.Name) ∧ w2.namespaces = w.namespaces ++ [ns] ∧
      w2.rows = w.rows := by
  change World.createNamespace ns w = (none, w2) at h
  obtain ⟨hr, hn, _⟩ := nextFault_frame w
  unfold World.createNamespace at h
  rcases hf : World.nextFault w with ⟨_ | f, w1⟩
  · rw [hf] at h hr hn
    simp only [] at h hr hn
    by_cases hany : (w1.namespaces.any fun n => n.Name == ns.Name) = true
    · rw [if_pos hany] at h
      simp at h
    · rw [if_neg hany] at h
      simp only [Prod.mk.injEq, true_and] at h
      subst h
      refine ⟨?_, by simp [hn], hr⟩
      intro n hmem heq
      apply hany
      rw [← hn] at hmem
      exact List.any_eq_true.2 ⟨n, hmem, by simpa using heq⟩
  · rw [hf] at h
    simp at h

/-- The row changes of the UPDATE of an entity. -/
theorem update_rows_fixed (id : String) (envs : List String) (rows : List DomainSpec)
    (h : ∀ r ∈ rows, r.DomainID = id → r.Environments = envs) :
    (rows.map fun r => if r.DomainID == id then { r with Environments := envs } else r) =
      rows := by
  induction rows with
  | nil => rfl
  | cons a t ih =>
    have ha := h a (List.mem_cons_self a t)
    have ht := ih fun r hr => h r (List.mem_cons_of_mem a hr)
    simp only [List.map_cons, ht, List.cons.injEq, and_true]
    by_cases hid : a.DomainID = id
    · have he := ha hid
      cases a
      simp_all
    · simp [hid]

/-- In the in-memory world, a `createOrUpdateDomain` that returns no error ran
its statement without error and then found the namespace or created it. -/
theorem createOrUpdate_world_success (d : Domain) (op : String) (s s2 : Run World)
    (h : createOrUpdateDomain World.client d op s = (none, s2)) :
    ∃ w2 evs, World.client.Exec (statementOf op) (recordArgs d) s.world = (none, w2) ∧
      s2.trace = s.trace ++ ⟨.exec (statementOf op) (recordArgs d), none⟩ :: evs ∧
      (∀ ev ∈ evs, ev.call.isNamespaceCall = true) ∧
      s2.world.rows = w2.rows ∧
      (((∃ n ∈ w2.namespaces, n.Name = d.Spec.DomainID) ∧
          s2.world.namespaces = w2.namespaces) ∨
        ((∀ n ∈ w2.namespaces, n.Name ≠ d.Spec.DomainID) ∧
          s2.world.namespaces = w2.namespaces ++ [namespaceFor d.Spec.DomainID])) := by
  rcases createOrUpdate_cases World.client d op s with
    ⟨e, w2, _, hc⟩ | ⟨w2, ns, w3, h1, h2, hc⟩ | ⟨w2, e, w3, _, _, _, hc⟩ |
    ⟨w2, e, w3, e2, w4, _, _, _, _, hc⟩ | ⟨w2, e, w3, w4, h1, h2, _, h3, hc⟩
  · rw [hc] at h; simp at h
  · rw [hc] at h
    simp only [Prod.mk.injEq, true_and] at h
    subst h
    obtain ⟨hr, hn, hfound⟩ := getNamespace_spec _ w2 w3 _ h2
    obtain ⟨hmem, hname⟩ := hfound ns rfl
    refine ⟨w2, _, h1, rfl, ?_, hr, Or.inl ⟨⟨ns, hmem, hname⟩, hn⟩⟩
    simp [Call.isNamespaceCall]
  · rw [hc] at h; simp at h
  · rw [hc] at h; simp at h
  · rw [hc] at h
    simp only [Prod.mk.injEq, true_and] at h
    subst h
    obtain ⟨hr, hn, _⟩ := getNamespace_spec _ w2 w3 _ h2
    obtain ⟨hfree, hn4, hr4⟩ := createNamespace_spec _ w3 w4 h3
    refine ⟨w2, _, h1, rfl, ?_, by simp only [hr4, hr], Or.inr ⟨?_, ?_⟩⟩
    · simp [Call.isNamespaceCall]
    · intro n hmem
      rw [← hn] at hmem
      exact hfree n hmem
    · simp only [hn4, hn]

/-- In the in-memory world, a `syncDomainWithDatabase` that returns no error
made one query, one statement and then calls to the namespace adapter.  The
statement is the INSERT when the table had no row of the `id`, and the table
gains the row; it is the UPDATE when the table had one, and the rows of the
`id` get the environments.  The namespace was there and stays, or was absent
and is created. -/
theorem sync_world_success (d : Domain) (s s2 : Run World)
    (h : syncDomainWithDatabase World.client d s = (none, s2)) :
    ∃ q x evs, s2.trace = s.trace ++ q :: x :: evs ∧
      q.call = .queryRow selectSQL [.text d.Spec.DomainID] ∧
      (∀ ev ∈ evs, ev.call.isNamespaceCall = true) ∧
      (((∀ r ∈ s.world.rows, r.DomainID ≠ d.Spec.DomainID) ∧
          x = ⟨.exec insertSQL (recordArgs d), none⟩ ∧
          s2.world.rows = s.world.rows ++ [⟨d.Spec.DomainID, d.Spec.Environments⟩]) ∨
        ((∃ r ∈ s.world.rows, r.DomainID = d.Spec.DomainID) ∧
          x = ⟨.exec updateSQL (recordArgs d), none⟩ ∧
          s2.world.rows = s.world.rows.map fun r =>
            if r.DomainID == d.Spec.DomainID
            then { r with Environments := d.Spec.Environments } else r)) ∧
      (((∃ n ∈ s.world.namespaces, n.Name = d.Spec.DomainID) ∧
          s2.world.namespaces = s.world.namespaces) ∨
        ((∀ n ∈ s.world.namespaces, n.Name ≠ d.Spec.DomainID) ∧
          s2.world.namespaces = s.world.namespaces ++ [namespaceFor d.Spec.DomainID])) := by
  have create : ∀ (q : Event) (w2 : World),
      q.call = .queryRow selectSQL [.text d.Spec.DomainID] →
      w2.rows = s.world.rows → w2.namespaces = s.world.namespaces →
      createOrUpdateDomain World.client d "create" ⟨w2, s.trace ++ [q]⟩ = (none, s2) →
      ∃ q x evs, s2.trace = s.trace ++ q :: x :: evs ∧
      q.call = .queryRow selectSQL [.text d.Spec.DomainID] ∧
      (∀ ev ∈ evs, ev.call.isNamespaceCall = true) ∧
      (((∀ r ∈ s.world.rows, r.DomainID ≠ d.Spec.DomainID) ∧
          x = ⟨.exec insertSQL (recordArgs d), none⟩ ∧
          s2.world.rows = s.world.rows ++ [⟨d.Spec.DomainID, d.Spec.Environments⟩]) ∨
        ((∃ r ∈ s.world.rows, r.DomainID = d.Spec.DomainID) ∧
          x = ⟨.exec updateSQL (recordArgs d), none⟩ ∧
          s2.world.rows = s.world.rows.map fun r =>
            if r.DomainID == d.Spec.DomainID
            then { r with Environments := d.Spec.Environments } else r)) ∧
      (((∃ n ∈ s.world.namespaces, n.Name = d.Spec.DomainID) ∧
          s2.world.namespaces = s.world.namespaces) ∨
        ((∀ n ∈ s.world.namespaces, n.Name ≠ d.Spec.DomainID) ∧
          s2.world.namespaces = s.world.namespaces ++ [namespaceFor d.Spec.DomainID])) := by
    intro q w2 hq hr hn hc
    obtain ⟨w3, evs, hx, htr, hall, hrows, hns⟩ :=
      createOrUpdate_world_success d "create" _ s2 hc
    have hst : statementOf "create" = insertSQL := rfl
    rw [hst] at hx htr
    obtain ⟨hfree, hr3, hn3⟩ := exec_insert_spec _ _ w2 w3 hx
    refine ⟨q, _, evs, by rw [htr]; simp, hq, hall, Or.inl ⟨?_, rfl, ?_⟩, ?_⟩
    · rw [← hr]; exact hfree
    · rw [hrows, hr3, hr]
    · rw [hn3, hn] at hns
      exact hns
  rcases sync_cases World.client d s with ⟨e, w2, _, _, hc⟩ | ⟨e, w2, h1, _, hc⟩ |
    ⟨r, w2, h1, _, hc⟩ | ⟨r, w2, h1, _, hc⟩
  · rw [hc] at h; simp at h
  · obtain ⟨hr, hn, _⟩ := queryRow_spec _ s.world w2 _ h1
    rw [hc] at h
    exact create _ w2 rfl hr hn h
  · obtain ⟨hr, hn, _⟩ := queryRow_spec _ s.world w2 _ h1
    rw [hc] at h
    exact create _ w2 rfl hr hn h
  · obtain ⟨hr, hn, hrow⟩ := queryRow_spec _ s.world w2 _ h1
    obtain ⟨hmem, hid⟩ := hrow r rfl
    rw [hc] at h
    obtain ⟨w3, evs, hx, htr, hall, hrows, hns⟩ :=
      createOrUpdate_world_success d "update" _ s2 h
    have hst : statementOf "update" = updateSQL := by decide
    rw [hst] at hx htr
    obtain ⟨hr3, hn3⟩ := exec_update_spec _ _ w2 w3 hx
    refine ⟨⟨.queryRow selectSQL [.text d.Spec.DomainID], none⟩,
      ⟨.exec updateSQL (recordArgs d), none⟩, evs, by rw [htr]; simp, rfl, hall,
      Or.inr ⟨⟨r, hmem, hid⟩, rfl, ?_⟩, ?_⟩
    · rw [hrows, hr3, hr]
    · rw [hn3, hn] at hns
      exact hns

/-! ## The in-memory world with no pending fault -/

theorem queryRow_nofault (id : String) (w : World) (hf : w.faults = []) :
    World.client.QueryRow selectSQL [.text id] w =
      ((match w.rows.find? fun r => r.DomainID == id with
        | some r => .ok r
        | none => .error World.errNoRows), w) := by
  change World.queryRow selectSQL [.text id] w = _
  unfold World.queryRow
  rw [nextFault_none w hf]
  simp only [if_true]
  cases w.rows.find? fun r => r.DomainID == id <;> rfl

theorem exec_insert_nofault (id : String) (envs : List String) (w : World)
    (hf : w.faults = []) (hfree : ∀ r ∈ w.rows, r.DomainID ≠ id) :
    World.client.Exec insertSQL [.text id, .textArray envs] w =
      (none, { w with rows := w.rows ++ [⟨id, envs⟩] }) := by
  change World.exec insertSQL [.text id, .textArray envs] w = _
  unfold World.exec
  rw [nextFault_none w hf]
  have hany : ¬ (w.rows.any fun r => r.DomainID == id) = true := by
    intro h
    obtain ⟨r, hr, heq⟩ := List.any_eq_true.1 h
    exact hfree r hr (by simpa using heq)
  simp only [if_true, if_neg hany]

theorem exec_update_nofault (id : String) (envs : List String) (w : World)
    (hf : w.faults = []) :
    World.client.Exec updateSQL [.text id, .textArray envs] w =
      (none, { w with rows := w.rows.map fun r =>
        if r.DomainID == id then { r with Environments := envs } else r }) := by
  change World.exec updateSQL [.text id, .textArray envs] w = _
  unfold World.exec
  rw [nextFault_none w hf]
  simp only [statements_distinct.1, if_false, if_true]

theorem exec_delete_nofault (id : String) (w : World) (hf : w.faults = []) :
    World.client.Exec deleteSQL [.text id] w =
      (none, { w with rows := w.rows.filter fun r => !(r.DomainID == id) }) := by
  change World.exec deleteSQL [.text id] w = _
  unfold World.exec
  rw [nextFault_none w hf]
  simp only [statements_distinct.2.1, statements_distinct.2.2, if_false, if_true]

theorem getNamespace_nofault (key : NamespacedName) (w : World) (hf : w.faults = []) :
    World.client.GetNamespace key w =
      ((match w.namespaces.find? fun n => n.Name == key.Name with
        | some n => .ok n
        | none => .error World.errNotFound), w) := by
  change World.getNamespace key w = _
  unfold World.getNamespace
  rw [nextFault_none w hf]
  simp only []
  cases w.namespaces.find? fun n => n.Name == key.Name <;> rfl

theorem createNamespace_nofault (ns : Namespace) (w : World) (hf : w.faults = [])
    (hfree : ∀ n ∈ w.namespaces, n.Name ≠ ns.Name) :
    World.client.CreateNamespace ns w =
      (none, { w with namespaces := w.namespaces ++ [ns] }) := by
  change World.createNamespace ns w = _
  unfold World.createNamespace
  rw [nextFault_none w hf]
  have hany : ¬ (w.namespaces.any fun n => n.Name == ns.Name) = true := by
    intro h
    obtain ⟨n, hn, heq⟩ := List.any_eq_true.1 h
    exact hfree n hn (by simpa using heq)
  simp only [if_neg hany]

theorem deleteNamespace_nofault (ns : Namespace) (w : World) (hf : w.faults = [])
    (hex : ∃ n ∈ w.namespaces, n.Name = ns.Name) :
    World.client.DeleteNamespace ns w =
      (none, { w with namespaces := w.namespaces.filter fun n => !(n.Name == ns.Name) }) := by
  change World.deleteNamespace ns w = _
  unfold World.deleteNamespace
  rw [nextFault_none w hf]
  have hany : (w.namespaces.any fun n => n.Name == ns.Name) = true := by
    obtain ⟨n, hn, heq⟩ := hex
    exact List.any_eq_true.2 ⟨n, hn, by simpa using heq⟩
  simp only [if_pos hany]

/-- With no pending fault, `createOrUpdateDomain` returns no error: the UPDATE
always, the INSERT when the table has no row of the `id`. -/
theorem createOrUpdate_world_total (d : Domain) (op : String) (s : Run World)
    (hf : s.world.faults = [])
    (hfree : op = "create" → ∀ r ∈ s.world.rows, r.DomainID ≠ d.Spec.DomainID) :
    ∃ s2, createOrUpdateDomain World.client d op s = (none, s2) ∧ s2.world.faults = [] := by
  have hexec : ∃ w2, World.client.Exec (statementOf op) (recordArgs d) s.world = (none, w2) ∧
      w2.faults = [] := by
    unfold statementOf recordArgs
    by_cases hop : op = "create"
    · rw [if_pos hop, exec_insert_nofault _ _ s.world hf (hfree hop)]
      exact ⟨_, rfl, hf⟩
    · rw [if_neg hop, exec_update_nofault _ _ s.world hf]
      exact ⟨_, rfl, hf⟩
  obtain ⟨wx, hx, hfx⟩ := hexec
  rcases createOrUpdate_cases World.client d op s with
    ⟨e, w2, h1, _⟩ | ⟨w2, ns, w3, h1, h2, hc⟩ | ⟨w2, e, w3, h1, h2, hnf, _⟩ |
    ⟨w2, e, w3, e2, w4, h1, h2, _, h3, _⟩ | ⟨w2, e, w3, w4, h1, h2, _, h3, hc⟩
  · rw [hx] at h1; simp at h1
  · rw [hx] at h1
    simp only [Prod.mk.injEq, true_and] at h1
    subst h1
    rw [getNamespace_nofault _ wx hfx] at h2
    simp only [Prod.mk.injEq] at h2
    exact ⟨_, hc, by rw [← h2.2]; exact hfx⟩
  · rw [hx] at h1
    simp only [Prod.mk.injEq, true_and] at h1
    subst h1
    rw [getNamespace_nofault _ wx hfx] at h2
    simp only [Prod.mk.injEq] at h2
    cases hfind : wx.namespaces.find? fun n => n.Name == d.Spec.DomainID with
    | none =>
      rw [hfind] at h2
      simp only [Except.error.injEq] at h2
      rw [← h2.1] at hnf
      simp [World.errNotFound, IsNotFound] at hnf
    | some n => rw [hfind] at h2; simp at h2
  · rw [hx] at h1
    simp only [Prod.mk.injEq, true_and] at h1
    subst h1
    rw [getNamespace_nofault _ wx hfx] at h2
    simp only [Prod.mk.injEq] at h2
    cases hfind : wx.namespaces.find? fun n => n.Name == d.Spec.DomainID with
    | none =>
      have hnone : ∀ n ∈ w3.namespaces, n.Name ≠ (namespaceFor d.Spec.DomainID).Name := by
        intro n hn heq
        rw [← h2.2] at hn
        have := List.find?_eq_none.1 hfind n hn
        simp [namespaceFor] at heq
        simp [heq] at this
      rw [createNamespace_nofault _ w3 (by rw [← h2.2]; exact hfx) hnone] at h3
      simp at h3
    | some n => rw [hfind] at h2; simp at h2
  · rw [hx] at h1
    simp only [Prod.mk.injEq, true_and] at h1
    subst h1
    rw [getNamespace_nofault _ wx hfx] at h2
    simp only [Prod.mk.injEq] at h2
    have hf3 : w3.faults = [] := by rw [← h2.2]; exact hfx
    cases hfind : wx.namespaces.find? fun n => n.Name == d.Spec.DomainID with
    | none =>
      have hnone : ∀ n ∈ w3.namespaces, n.Name ≠ (namespaceFor d.Spec.DomainID).Name := by
        intro n hn heq
        rw [← h2.2] at hn
        have := List.find?_eq_none.1 hfind n hn
        simp [namespaceFor] at heq
        simp [heq] at this
      rw [createNamespace_nofault _ w3 hf3 hnone] at h3
      simp only [Prod.mk.injEq, true_and] at h3
      exact ⟨_, hc, by rw [← h3]; exact hf3⟩
    | some n => rw [hfind] at h2; simp at h2

/-- With no pending fault and a non-empty `id`, `syncDomainWithDatabase`
returns no error. -/
theorem sync_world_total (d : Domain) (s : Run World) (hf : s.world.faults = [])
    (hid : d.Spec.DomainID ≠ "") :
    ∃ s2, syncDomainWithDatabase World.client d s = (none, s2) ∧ s2.world.faults = [] := by
  rcases sync_cases World.client d s with ⟨e, w2, h1, hne, _⟩ | ⟨e, w2, h1, _, hc⟩ |
    ⟨r, w2, h1, hr, _⟩ | ⟨r, w2, h1, _, hc⟩
  · rw [queryRow_nofault _ s.world hf] at h1
    simp only [Prod.mk.injEq] at h1
    cases hfind : s.world.rows.find? fun r => r.DomainID == d.Spec.DomainID with
    | none =>
      rw [hfind] at h1
      simp only [Except.error.injEq] at h1
      rw [← h1.1] at hne
      exact absurd rfl hne
    | some r => rw [hfind] at h1; simp at h1
  · rw [queryRow_nofault _ s.world hf] at h1
    simp only [Prod.mk.injEq] at h1
    cases hfind : s.world.rows.find? fun r => r.DomainID == d.Spec.DomainID with
    | none =>
      rw [hc]
      apply createOrUpdate_world_total d "create" _ (by rw [← h1.2]; exact hf)
      intro _ r hr heq
      rw [← h1.2] at hr
      have := List.find?_eq_none.1 hfind r hr
      simp [heq] at this
    | some r => rw [hfind] at h1; simp at h1
  · obtain ⟨_, _, hrow⟩ := queryRow_spec _ s.world w2 _ h1
    exact absurd ((hrow r rfl).2.symm.trans hr) hid
  · rw [queryRow_nofault _ s.world hf] at h1
    simp only [Prod.mk.injEq] at h1
    rw [hc]
    exact createOrUpdate_world_total d "update" _ (by rw [← h1.2]; exact hf)
      (fun h => absurd h (by decide))

theorem getDomain_nofault (key : NamespacedName) (w : World) (hf : w.faults = []) :
    World.client.GetDomain key w =
      ((match w.domains.find? fun d => d.Namespace == key.Namespace && d.Name == key.Name with
        | some d => .ok d
        | none => .error World.errNotFound), w) := by
  change World.getDomain key w = _
  unfold World.getDomain
  rw [nextFault_none w hf]
  simp only []
  cases w.domains.find? fun d => d.Namespace == key.Namespace && d.Name == key.Name <;> rfl

theorem updateDomain_nofault (d : Domain) (w : World) (hf : w.faults = [])
    (hex : ∃ x ∈ w.domains, x.Namespace = d.Namespace ∧ x.Name = d.Name) :
    World.client.UpdateDomain d w =
      (none, { w with domains := w.domains.map fun x =>
        if x.Namespace == d.Namespace && x.Name == d.Name
        then { d with Status := x.Status } else x }) := by
  change World.updateDomain d w = _
  unfold World.updateDomain
  rw [nextFault_none w hf]
  have hany : (w.domains.any fun x => x.Namespace == d.Namespace && x.Name == d.Name) =
      true := by
    obtain ⟨x, hx, h1, h2⟩ := hex
    exact List.any_eq_true.2 ⟨x, hx, by simp [h1, h2]⟩
  simp only [if_pos hany]

/-! ## The in-memory world: calls that leave the stored entities alone -/

theorem getDomain_domains (key : NamespacedName) (w : World) :
    (World.client.GetDomain key w).2.domains = w.domains := by
  change (World.getDomain key w).2.domains = w.domains
  obtain ⟨_, _, hd⟩ := nextFault_frame w
  unfold World.getDomain
  rcases hf : World.nextFault w with ⟨_ | f, w1⟩
  · rw [hf] at hd
    simp only [] at hd ⊢
    split <;> exact hd
  · rw [hf] at hd
    exact hd

theorem exec_domains (sql : String) (args : List SqlArg) (w : World) :
    (World.client.Exec sql args w).2.domains = w.domains := by
  change (World.exec sql args w).2.domains = w.domains
  obtain ⟨_, _, hd⟩ := nextFault_frame w
  unfold World.exec
  rcases hf : World.nextFault w with ⟨_ | f, w1⟩
  · rw [hf] at hd
    simp only [] at hd ⊢
    repeat' split
    all_goals simp [hd]
  · rw [hf] at hd
    exact hd

theorem getNamespace_domains (key : NamespacedName) (w : World) :
    (World.client.GetNamespace key w).2.domains = w.domains := by
  change (World.getNamespace key w).2.domains = w.domains
  obtain ⟨_, _, hd⟩ := nextFault_frame w
  unfold World.getNamespace
  rcases hf : World.nextFault w with ⟨_ | f, w1⟩
  · rw [hf] at hd
    simp only [] at hd ⊢
    split <;> exact hd
  · rw [hf] at hd
    exact hd

theorem deleteNamespace_domains (ns : Namespace) (w : World) :
    (World.client.DeleteNamespace ns w).2.domains = w.domains := by
  change (World.deleteNamespace ns w).2.domains = w.domains
  obtain ⟨_, _, hd⟩ := nextFault_frame w
  unfold World.deleteNamespace
  rcases hf : World.nextFault w with ⟨_ | f, w1⟩
  · rw [hf] at hd
    simp only [] at hd ⊢
    split <;> simp [hd]
  · rw [hf] at hd
    exact hd

/-- In the in-memory world `finalizeDomain` leaves the stored entities as they
are. -/
theorem finalize_world_domains (d : Domain) (s : Run World) :
    (finalizeDomain World.client d s).2.world.domains = s.world.domains := by
  have hx := exec_domains deleteSQL [.text d.Name] s.world
  rcases finalize_cases World.client d s with
    ⟨e, w2, h1, h⟩ | ⟨w2, e, w3, h1, h2, _, h⟩ | ⟨w2, e, w3, h1, h2, _, h⟩ |
    ⟨w2, ns, w3, e, w4, h1, h2, h3, h⟩ | ⟨w2, ns, w3, w4, h1, h2, h3, h⟩
  · rw [h]; rw [h1] at hx; exact hx
  · have hg := getNamespace_domains ⟨"", d.Name⟩ w2
    rw [h]; rw [h1] at hx; rw [h2] at hg
    exact hg.trans hx
  · have hg := getNamespace_domains ⟨"", d.Name⟩ w2
    rw [h]; rw [h1] at hx; rw [h2] at hg
    exact hg.trans hx
  · have hg := getNamespace_domains ⟨"", d.Name⟩ w2
    have hd := deleteNamespace_domains ns w3
    rw [h]; rw [h1] at hx; rw [h2] at hg; rw [h3] at hd
    exact hd.trans (hg.trans hx)
  · have hg := getNamespace_domains ⟨"", d.Name⟩ w2
    have hd := deleteNamespace_domains ns w3
    rw [h]; rw [h1] at hx; rw [h2] at hg; rw [h3] at hd
    exact hd.trans (hg.trans hx)

/-! ## The claims -/

/-- C1, as stated, fails.  An entity named `teamA` with `spec.id = teamB` and
no finalizer: the run ends after the Update that adds the finalizer, no status
is written and the stored status stays valid.  The same entity with the
finalizer and under deletion: the run deletes from the record store and from
the namespace adapter. -/
theorem C1_mismatch_counterexample :
    (World.client.GetDomain reqA.NamespacedName (worldOf dMismatchFresh) =
        (.ok dMismatchFresh, worldOf dMismatchFresh) ∧
      reqA.Name ≠ dMismatchFresh.Spec.DomainID ∧
      (runReconcile World.client acceptAll reqA (worldOf dMismatchFresh)).2.trace =
        [⟨.getDomain reqA.NamespacedName, none⟩,
         ⟨.updateDomain (AddFinalizer dMismatchFresh domainFinalizer), none⟩] ∧
      ((runReconcile World.client acceptAll reqA (worldOf dMismatchFresh)).2.trace.any
        fun ev => ev.call.isStatusWrite) = false ∧
      (runReconcile World.client acceptAll reqA (worldOf dMismatchFresh)).2.world.domains =
        [{ dMismatchFresh with Finalizers := [domainFinalizer] }]) ∧
    (World.client.GetDomain reqA.NamespacedName (worldSynced dMismatchTerminating) =
        (.ok dMismatchTerminating, worldSynced dMismatchTerminating) ∧
      reqA.Name ≠ dMismatchTerminating.Spec.DomainID ∧
      (runReconcile World.client acceptAll reqA (worldSynced dMismatchTerminating)).2.trace =
        [⟨.getDomain reqA.NamespacedName, none⟩,
         ⟨.exec deleteSQL [.text "teamA"], none⟩,
         ⟨.getNamespace ⟨"", "teamA"⟩, none⟩,
         ⟨.deleteNamespace (namespaceFor "teamA"), none⟩,
         ⟨.updateDomain (RemoveFinalizer dMismatchTerminating domainFinalizer), none⟩] ∧
      ((runReconcile World.client acceptAll reqA (worldSynced dMismatchTerminating)).2.trace.any
        fun ev => ev.call.isStatusWrite) = false ∧
      (runReconcile World.client acceptAll reqA
        (worldSynced dMismatchTerminating)).2.world.rows = [] ∧
      (runReconcile World.client acceptAll reqA
        (worldSynced dMismatchTerminating)).2.world.namespaces = []) := by
  decide

/-- C1, amended. Identifier-mismatch rejection: on a fetched entity that
carries the finalizer, is not being deleted and whose `spec.id` differs from
the dispatch key, `Reconcile` makes exactly two calls, the fetch and one
status update with `valid = false`, and returns what the status update
returned; no call goes to the record store or to the namespace adapter. -/
theorem C1_mismatch_rejection {σ : Type} (c : Client σ)
    (Validate : Domain → Option GoError) (req : Request) (w w1 : σ) (d : Domain)
    (hget : c.GetDomain req.NamespacedName w = (.ok d, w1))
    (hfin : ContainsFinalizer d domainFinalizer = true)
    (hdel : IsZero d.DeletionTimestamp = true)
    (hid : req.Name ≠ d.Spec.DomainID) :
    (runReconcile c Validate req w).1 = ({}, (c.StatusUpdate (withValid d false) w1).1) ∧
      (runReconcile c Validate req w).2.trace =
        [⟨.getDomain req.NamespacedName, none⟩,
         ⟨.statusUpdate (withValid d false), (c.StatusUpdate (withValid d false) w1).1⟩] ∧
      (runReconcile c Validate req w).2.world = (c.StatusUpdate (withValid d false) w1).2 ∧
      (withValid d false).Status.Valid = false ∧
      ∀ ev ∈ (runReconcile c Validate req w).2.trace,
        ev.call.isRecordCall = false ∧ ev.call.isNamespaceCall = false ∧
          ev.call.isEntityUpdate = false := by
  rw [reconcile_invalid c Validate req w w1 d hget hfin hdel (Or.inl hid)]
  refine ⟨rfl, rfl, rfl, rfl, ?_⟩
  simp [Call.isRecordCall, Call.isNamespaceCall, Call.isEntityUpdate]

/-- C1, amended, at an entity named `teamA` with `spec.id = teamB` that
carries the finalizer: the stored status becomes invalid. -/
theorem C1_mismatch_rejection_witness :
    World.client.GetDomain reqA.NamespacedName (worldSynced dMismatch) =
        (.ok dMismatch, worldSynced dMismatch) ∧
      ContainsFinalizer dMismatch domainFinalizer = true ∧
      IsZero dMismatch.DeletionTimestamp = true ∧
      reqA.Name ≠ dMismatch.Spec.DomainID ∧
      (runReconcile World.client acceptAll reqA (worldSynced dMismatch)).2.trace =
        [⟨.getDomain reqA.NamespacedName, none⟩,
         ⟨.statusUpdate (withValid dMismatch false), none⟩] ∧
      (runReconcile World.client acceptAll reqA (worldSynced dMismatch)).2.world =
        worldSynced (withValid dMismatch false) :=
  ⟨by decide, by decide, by decide, by decide,
    (C1_mismatch_rejection World.client acceptAll reqA (worldSynced dMismatch)
      (worldSynced dMismatch) dMismatch (by decide) (by decide) (by decide) (by decide)).2.1,
    by decide⟩

/-- C2. Cleanup before removal: in every run of `Reconcile`, an Update of the
entity without the finalizer comes only after a DELETE of its record that
returned no error and after the namespace step returned no error: the lookup
answered NotFound, or the lookup and the deletion both returned no error. -/
theorem C2_cleanup_before_removal {σ : Type} (c : Client σ)
    (Validate : Domain → Option GoError) (req : Request) (w : σ)
    (pre post : List Event) (d : Domain) (e : Option GoError)
    (hsplit : (runReconcile c Validate req w).2.trace = pre ++ ⟨.updateDomain d, e⟩ :: post)
    (hrem : ContainsFinalizer d domainFinalizer = false) :
    (⟨.exec deleteSQL [.text d.Name], none⟩ : Event) ∈ pre ∧
      ((∃ e2, (⟨.getNamespace ⟨"", d.Name⟩, some e2⟩ : Event) ∈ pre ∧ IsNotFound e2 = true) ∨
        ((⟨.getNamespace ⟨"", d.Name⟩, none⟩ : Event) ∈ pre ∧
          ∃ ns, (⟨.deleteNamespace ns, none⟩ : Event) ∈ pre)) := by
  have hmem : (⟨.updateDomain d, e⟩ : Event) ∈ (runReconcile c Validate req w).2.trace := by
    rw [hsplit]; simp
  rcases hg : c.GetDomain req.NamespacedName w with ⟨err | d0, w1⟩
  · rw [reconcile_unfetched c Validate req w w1 err hg] at hmem
    simp at hmem
  · cases hfin : ContainsFinalizer d0 domainFinalizer
    · rw [reconcile_unmarked c Validate req w w1 d0 hg hfin] at hmem
      simp only [List.mem_cons, Event.mk.injEq, Call.updateDomain.injEq, List.mem_singleton,
        List.not_mem_nil, or_false, false_and, false_or, reduceCtorEq] at hmem
      have hc := containsFinalizer_addFinalizer d0 domainFinalizer
      rw [← hmem.1, hrem] at hc
      cases hc
    · cases hz : IsZero d0.DeletionTimestamp
      · have hrun := reconcile_terminating c Validate req w w1 d0 hg hfin hz
        obtain ⟨evs, htr, hall, hok⟩ :=
          finalize_trace c d0 ⟨w1, [⟨.getDomain req.NamespacedName, none⟩]⟩
        have hno := update_not_among req.NamespacedName evs
          (finalize_calls_classified d0 evs hall) d e
        rcases hf : finalizeDomain c d0 ⟨w1, [⟨.getDomain req.NamespacedName, none⟩]⟩ with
          ⟨_ | err, s2⟩
        · rw [hf] at htr hok
          simp only [] at htr
          rw [hrun, hf] at hsplit
          simp only [] at hsplit
          rw [htr] at hsplit
          obtain ⟨hpre, hx, _⟩ := split_at_last _ _ _ _ _ hsplit hno
          simp only [Event.mk.injEq, Call.updateDomain.injEq] at hx
          obtain ⟨h1, h2⟩ := hok rfl
          rw [hpre, hx.1, removeFinalizer_name]
          refine ⟨List.mem_append_right _ h1, ?_⟩
          rcases h2 with ⟨e2, h2, hnf⟩ | ⟨h2, ns, h3⟩
          · exact Or.inl ⟨e2, List.mem_append_right _ h2, hnf⟩
          · exact Or.inr ⟨List.mem_append_right _ h2, ns, List.mem_append_right _ h3⟩
        · rw [hrun, hf] at hmem
          rw [hf] at htr
          simp only [] at hmem htr
          rw [htr] at hmem
          exact absurd hmem hno
      · by_cases hbad : req.Name ≠ d0.Spec.DomainID ∨ Validate d0 ≠ none
        · rw [reconcile_invalid c Validate req w w1 d0 hg hfin hz hbad] at hmem
          simp at hmem
        · simp only [not_or, not_not] at hbad
          obtain ⟨hid, hval⟩ := hbad
          rw [reconcile_active c Validate req w w1 d0 hg hfin hz hid hval] at hmem
          obtain ⟨evs, htr, hall, _⟩ :=
            sync_trace c d0 ⟨w1, [⟨.getDomain req.NamespacedName, none⟩]⟩
          have hno := update_not_among req.NamespacedName evs hall d e
          rcases hs : syncDomainWithDatabase c d0
            ⟨w1, [⟨.getDomain req.NamespacedName, none⟩]⟩ with ⟨_ | err, s2⟩
          · rw [hs] at hmem htr
            simp only [updateDomainStatus_eq] at hmem htr
            rw [htr] at hmem
            rcases List.mem_append.1 hmem with h | h
            · exact absurd h hno
            · simp at h
          · rw [hs] at hmem htr
            simp only [] at hmem htr
            rw [htr] at hmem
            exact absurd hmem hno

/-- C2 at Scenario D: the Update that removes the finalizer of `teamA` is the
fifth call of the run, after the DELETE of the record and after the lookup
and the deletion of the namespace `teamA`. -/
theorem C2_cleanup_before_removal_witness :
    (runReconcile World.client acceptAll reqA (worldSynced dTerminating)).2.trace =
        [⟨.getDomain reqA.NamespacedName, none⟩,
         ⟨.exec deleteSQL [.text "teamA"], none⟩,
         ⟨.getNamespace ⟨"", "teamA"⟩, none⟩,
         ⟨.deleteNamespace (namespaceFor "teamA"), none⟩] ++
        ⟨.updateDomain { dTerminating with Finalizers := [] }, none⟩ :: [] ∧
      ContainsFinalizer { dTerminating with Finalizers := [] } domainFinalizer = false ∧
      (⟨.exec deleteSQL [.text "teamA"], none⟩ : Event) ∈
        ([⟨.getDomain reqA.NamespacedName, none⟩,
          ⟨.exec deleteSQL [.text "teamA"], none⟩,
          ⟨.getNamespace ⟨"", "teamA"⟩, none⟩,
          ⟨.deleteNamespace (namespaceFor "teamA"), none⟩] : List Event) :=
  ⟨by decide, by decide,
    (C2_cleanup_before_removal World.client acceptAll reqA (worldSynced dTerminating)
      [⟨.getDomain reqA.NamespacedName, none⟩,
       ⟨.exec deleteSQL [.text "teamA"], none⟩,
       ⟨.getNamespace ⟨"", "teamA"⟩, none⟩,
       ⟨.deleteNamespace (namespaceFor "teamA"), none⟩] []
      { dTerminating with Finalizers := [] } none (by decide) (by decide)).1⟩

/-- C3. Finalizer before side effect: on a fetched entity that does not carry
the finalizer, `Reconcile` makes exactly two calls, the fetch and one Update
of the entity with the finalizer added, and returns what the Update returned;
no call goes to the record store or to the namespace adapter and no status is
written. -/
theorem C3_finalizer_before_side_effect {σ : Type} (c : Client σ)
    (Validate : Domain → Option GoError) (req : Request) (w w1 : σ) (d : Domain)
    (hget : c.GetDomain req.NamespacedName w = (.ok d, w1))
    (hfin : ContainsFinalizer d domainFinalizer = false) :
    (runReconcile c Validate req w).1 =
        ({}, (c.UpdateDomain (AddFinalizer d domainFinalizer) w1).1) ∧
      (runReconcile c Validate req w).2.trace =
        [⟨.getDomain req.NamespacedName, none⟩,
         ⟨.updateDomain (AddFinalizer d domainFinalizer),
           (c.UpdateDomain (AddFinalizer d domainFinalizer) w1).1⟩] ∧
      (runReconcile c Validate req w).2.world =
        (c.UpdateDomain (AddFinalizer d domainFinalizer) w1).2 ∧
      ContainsFinalizer (AddFinalizer d domainFinalizer) domainFinalizer = true ∧
      ((runReconcile c Validate req w).2.trace.filter
        fun ev => ev.call.isEntityUpdate).length = 1 ∧
      ∀ ev ∈ (runReconcile c Validate req w).2.trace,
        ev.call.isRecordCall = false ∧ ev.call.isNamespaceCall = false ∧
          ev.call.isStatusWrite = false := by
  rw [reconcile_unmarked c Validate req w w1 d hget hfin]
  refine ⟨rfl, rfl, rfl, containsFinalizer_addFinalizer d domainFinalizer, ?_, ?_⟩
  · simp [Call.isEntityUpdate]
  · simp [Call.isRecordCall, Call.isNamespaceCall, Call.isStatusWrite]

/-- C3 at Scenario A: entity `teamA` with no finalizer, in a world with no
record and no namespace. -/
theorem C3_finalizer_before_side_effect_witness :
    World.client.GetDomain reqA.NamespacedName (worldOf dFresh) =
        (.ok dFresh, worldOf dFresh) ∧
      ContainsFinalizer dFresh domainFinalizer = false ∧
      (runReconcile World.client acceptAll reqA (worldOf dFresh)).2.trace =
        [⟨.getDomain reqA.NamespacedName, none⟩,
         ⟨.updateDomain (AddFinalizer dFresh domainFinalizer), none⟩] ∧
      (runReconcile World.client acceptAll reqA (worldOf dFresh)).2.world =
        worldOf dActive :=
  ⟨by decide, by decide,
    (C3_finalizer_before_side_effect World.client acceptAll reqA (worldOf dFresh)
      (worldOf dFresh) dFresh (by decide) (by decide)).2.1,
    by decide⟩

/-- C4. Idempotent sync: when two runs of `syncDomainWithDatabase` in a row,
with the same entity, both return no error, the second leaves the rows of the
table and the namespaces, labels included, as the first left them.  With no
pending fault and a non-empty `id` both runs do return no error. -/
theorem C4_idempotent_sync (d : Domain) (w : World) :
    (∀ s1 s2, syncDomainWithDatabase World.client d ⟨w, []⟩ = (none, s1) →
      syncDomainWithDatabase World.client d ⟨s1.world, []⟩ = (none, s2) →
      s2.world.rows = s1.world.rows ∧ s2.world.namespaces = s1.world.namespaces) ∧
    (w.faults = [] → d.Spec.DomainID ≠ "" →
      ∃ s1 s2, syncDomainWithDatabase World.client d ⟨w, []⟩ = (none, s1) ∧
        syncDomainWithDatabase World.client d ⟨s1.world, []⟩ = (none, s2) ∧
        s2.world.rows = s1.world.rows ∧ s2.world.namespaces = s1.world.namespaces) := by
  have main : ∀ s1 s2, syncDomainWithDatabase World.client d ⟨w, []⟩ = (none, s1) →
      syncDomainWithDatabase World.client d ⟨s1.world, []⟩ = (none, s2) →
      s2.world.rows = s1.world.rows ∧ s2.world.namespaces = s1.world.namespaces := by
    intro s1 s2 h1 h2
    obtain ⟨_, _, _, _, _, _, hrec1, hns1⟩ := sync_world_success d ⟨w, []⟩ s1 h1
    obtain ⟨_, _, _, _, _, _, hrec2, hns2⟩ := sync_world_success d ⟨s1.world, []⟩ s2 h2
    simp only [] at hrec1 hns1 hrec2 hns2
    have hrow1 : (∃ r ∈ s1.world.rows, r.DomainID = d.Spec.DomainID) ∧
        ∀ r ∈ s1.world.rows, r.DomainID = d.Spec.DomainID →
          r.Environments = d.Spec.Environments := by
      rcases hrec1 with ⟨hfree, _, hrows⟩ | ⟨⟨r, hr, heq⟩, _, hrows⟩
      · refine ⟨⟨⟨d.Spec.DomainID, d.Spec.Environments⟩, by rw [hrows]; simp, rfl⟩, ?_⟩
        intro r hr heq
        rw [hrows] at hr
        rcases List.mem_append.1 hr with h | h
        · exact absurd heq (hfree r h)
        · simp only [List.mem_singleton] at h
          rw [h]
      · refine ⟨⟨{ r with Environments := d.Spec.Environments }, ?_, heq⟩, ?_⟩
        · rw [hrows]
          exact List.mem_map.2 ⟨r, hr, by simp [heq]⟩
        · intro r1 hr1 heq1
          rw [hrows] at hr1
          obtain ⟨r0, _, hr0⟩ := List.mem_map.1 hr1
          by_cases h0 : r0.DomainID = d.Spec.DomainID
          · simp only [h0, beq_self_eq_true, if_true] at hr0
            rw [← hr0]
          · have hb : (r0.DomainID == d.Spec.DomainID) = false := by simpa using h0
            simp only [hb, Bool.false_eq_true, if_false] at hr0
            rw [hr0] at h0
            exact absurd heq1 h0
    have hnsx : ∃ n ∈ s1.world.namespaces, n.Name = d.Spec.DomainID := by
      rcases hns1 with ⟨⟨n, hn, hname⟩, h⟩ | ⟨_, h⟩
      · exact ⟨n, by rw [h]; exact hn, hname⟩
      · exact ⟨namespaceFor d.Spec.DomainID, by rw [h]; simp, rfl⟩
    refine ⟨?_, ?_⟩
    · rcases hrec2 with ⟨hfree, _, _⟩ | ⟨_, _, hrows⟩
      · obtain ⟨r, hr, heq⟩ := hrow1.1
        exact absurd heq (hfree r hr)
      · rw [hrows]
        exact update_rows_fixed _ _ _ hrow1.2
    · rcases hns2 with ⟨_, h⟩ | ⟨h, _⟩
      · exact h
      · obtain ⟨n, hn, hname⟩ := hnsx
        exact absurd hname (h n hn)
  refine ⟨main, ?_⟩
  intro hf hid
  obtain ⟨s1, h1, hf1⟩ := sync_world_total d ⟨w, []⟩ hf hid
  obtain ⟨s2, h2, _⟩ := sync_world_total d ⟨s1.world, []⟩ hf1 hid
  exact ⟨s1, s2, h1, h2, main s1 s2 h1 h2⟩

/-- C4 at Scenario B: `teamA` with the finalizer in a world with no record and
no namespace; the first run inserts the row and creates the namespace, the
second run issues the UPDATE and changes nothing. -/
theorem C4_idempotent_sync_witness :
    syncDomainWithDatabase World.client dActive ⟨worldOf dActive, []⟩ =
        (none,
          ⟨worldSynced dActive,
            [⟨.queryRow selectSQL [.text "teamA"], some World.errNoRows⟩,
             ⟨.exec insertSQL [.text "teamA", .textArray ["dev"]], none⟩,
             ⟨.getNamespace ⟨"", "teamA"⟩, some World.errNotFound⟩,
             ⟨.createNamespace (namespaceFor "teamA"), none⟩]⟩) ∧
      syncDomainWithDatabase World.client dActive ⟨worldSynced dActive, []⟩ =
        (none,
          ⟨worldSynced dActive,
            [⟨.queryRow selectSQL [.text "teamA"], none⟩,
             ⟨.exec updateSQL [.text "teamA", .textArray ["dev"]], none⟩,
             ⟨.getNamespace ⟨"", "teamA"⟩, none⟩]⟩) ∧
      (worldSynced dActive).rows = (worldSynced dActive).rows ∧
      (worldSynced dActive).namespaces = (worldSynced dActive).namespaces :=
  ⟨by rfl, by rfl,
    (C4_idempotent_sync dActive (worldOf dActive)).1
      ⟨worldSynced dActive,
        [⟨.queryRow selectSQL [.text "teamA"], some World.errNoRows⟩,
         ⟨.exec insertSQL [.text "teamA", .textArray ["dev"]], none⟩,
         ⟨.getNamespace ⟨"", "teamA"⟩, some World.errNotFound⟩,
         ⟨.createNamespace (namespaceFor "teamA"), none⟩]⟩
      ⟨worldSynced dActive,
        [⟨.queryRow selectSQL [.text "teamA"], none⟩,
         ⟨.exec updateSQL [.text "teamA", .textArray ["dev"]], none⟩,
         ⟨.getNamespace ⟨"", "teamA"⟩, none⟩]⟩
      (by rfl) (by rfl)⟩

/-- C5, as stated, fails.  Entity `teamA` under deletion whose namespace is
found by the lookup and whose deletion answers NotFound: `finalizeDomain`
returns an error that wraps the NotFound, and the stored entity keeps the
finalizer. -/
theorem C5_delete_notfound_counterexample :
    World.client.GetNamespace ⟨"", "teamA"⟩ { worldDeleteNotFound with faults :=
        [none, some World.errNotFound] } =
        (.ok (namespaceFor "teamA"),
          { worldDeleteNotFound with faults := [some World.errNotFound] }) ∧
      World.client.DeleteNamespace (namespaceFor "teamA")
          { worldDeleteNotFound with faults := [some World.errNotFound] } =
        (some World.errNotFound, { worldDeleteNotFound with faults := [] }) ∧
      IsNotFound World.errNotFound = true ∧
      finalizeDomain World.client dTerminating ⟨worldDeleteNotFound, []⟩ =
        (some (.wrap "failed to delete namespace teamA: not found" World.errNotFound),
          ⟨{ worldDeleteNotFound with faults := [] },
            [⟨.exec deleteSQL [.text "teamA"], none⟩,
             ⟨.getNamespace ⟨"", "teamA"⟩, none⟩,
             ⟨.deleteNamespace (namespaceFor "teamA"), some World.errNotFound⟩]⟩) ∧
      (finalizeDomain World.client dTerminating ⟨worldDeleteNotFound, []⟩).1 ≠ none :=
  ⟨by decide, by decide, by decide, by rfl, by decide⟩

/-- C5, amended. Absent is success: with no pending fault, the DELETE of a
record that is absent returns no error and changes nothing; a NotFound answer
of the namespace lookup makes `deleteNamespaceForDomain` return no error
without a delete call; and an entity under deletion that carries the
finalizer, whose record is absent and whose namespace is there, has its namespace
deleted and is stored without the finalizer, `Reconcile` returning
no error. -/
theorem C5_absent_is_success :
    (∀ (w : World) (id : String), w.faults = [] → (∀ r ∈ w.rows, r.DomainID ≠ id) →
      DeleteDomain World.client id ⟨w, []⟩ =
        (none, ⟨w, [⟨.exec deleteSQL [.text id], none⟩]⟩)) ∧
    (∀ (σ : Type) (c : Client σ) (name : String) (s : Run σ) (e : GoError) (w2 : σ),
      c.GetNamespace ⟨"", name⟩ s.world = (.error e, w2) → IsNotFound e = true →
      deleteNamespaceForDomain c name s =
        (none, ⟨w2, s.trace ++ [⟨.getNamespace ⟨"", name⟩, some e⟩]⟩)) ∧
    (∀ (Validate : Domain → Option GoError) (req : Request) (w : World) (d : Domain),
      w.faults = [] →
      World.client.GetDomain req.NamespacedName w = (.ok d, w) →
      ContainsFinalizer d domainFinalizer = true →
      IsZero d.DeletionTimestamp = false →
      (∀ r ∈ w.rows, r.DomainID ≠ d.Name) →
      (∃ n ∈ w.namespaces, n.Name = d.Name) →
      (runReconcile World.client Validate req w).1 = ({}, none) ∧
        (∃ ns, (runReconcile World.client Validate req w).2.trace =
          [⟨.getDomain req.NamespacedName, none⟩,
           ⟨.exec deleteSQL [.text d.Name], none⟩,
           ⟨.getNamespace ⟨"", d.Name⟩, none⟩,
           ⟨.deleteNamespace ns, none⟩,
           ⟨.updateDomain (RemoveFinalizer d domainFinalizer), none⟩]) ∧
        (∀ n ∈ (runReconcile World.client Validate req w).2.world.namespaces,
          n.Name ≠ d.Name) ∧
        (runReconcile World.client Validate req w).2.world.rows = w.rows ∧
        (∀ x ∈ (runReconcile World.client Validate req w).2.world.domains,
          x.Namespace = d.Namespace → x.Name = d.Name →
          ContainsFinalizer x domainFinalizer = false)) := by
  have hfilter : ∀ (w : World) (id : String), (∀ r ∈ w.rows, r.DomainID ≠ id) →
      (w.rows.filter fun r => !(r.DomainID == id)) = w.rows := by
    intro w id hfree
    apply List.filter_eq_self.2
    intro r hr
    simpa using hfree r hr
  refine ⟨?_, fun σ c name s e w2 h hnf => deleteNamespace_absent c name s e w2 h hnf, ?_⟩
  · intro w id hf hfree
    simp only [DeleteDomain, callExec, exec_delete_nofault id w hf, hfilter w id hfree,
      List.nil_append]
  · intro Validate req w d hf hget hfin hdel hfree hex
    have hstored : d ∈ w.domains := by
      rw [getDomain_nofault _ w hf] at hget
      simp only [Prod.mk.injEq, and_true] at hget
      cases hfind : w.domains.find? fun x =>
          x.Namespace == req.NamespacedName.Namespace && x.Name == req.NamespacedName.Name with
      | none => rw [hfind] at hget; simp at hget
      | some x =>
        rw [hfind] at hget
        simp only [Except.ok.injEq] at hget
        rw [← hget]
        exact List.mem_of_find?_eq_some hfind
    have hx := exec_delete_nofault d.Name w hf
    rw [hfilter w d.Name hfree] at hx
    have hw : ({ w with rows := w.rows } : World) = w := by cases w; rfl
    rw [hw] at hx
    obtain ⟨ns, hns, hname⟩ : ∃ ns ∈ w.namespaces, ns.Name = d.Name ∧
        World.client.GetNamespace ⟨"", d.Name⟩ w = (.ok ns, w) := by
      have hg := getNamespace_nofault ⟨"", d.Name⟩ w hf
      cases hfind : w.namespaces.find? fun n => n.Name == d.Name with
      | none =>
        obtain ⟨n, hn, heq⟩ := hex
        have := List.find?_eq_none.1 hfind n hn
        simp [heq] at this
      | some ns =>
        simp only [hfind] at hg
        exact ⟨ns, List.mem_of_find?_eq_some hfind,
          by simpa using List.find?_some hfind, hg⟩
    obtain ⟨hname, hg⟩ := hname
    have hdn := deleteNamespace_nofault ns w hf ⟨ns, hns, rfl⟩
    have hu := updateDomain_nofault (RemoveFinalizer d domainFinalizer)
      { w with namespaces := w.namespaces.filter fun n => !(n.Name == ns.Name) } hf
      ⟨d, hstored, rfl, rfl⟩
    rw [reconcile_terminating World.client Validate req w w d hget hfin hdel,
      finalize_recordDeleted World.client d _ w hx,
      deleteNamespace_deleted World.client d.Name _ ns w _ hg hdn]
    simp only [hu, List.nil_append, List.cons_append, Option.map_none']
    refine ⟨trivial, ?_, ?_, trivial, ?_⟩
    · exact ⟨ns, rfl⟩
    · intro n hn
      simp only [List.mem_filter, Bool.not_eq_true', beq_eq_false_iff_ne, ne_eq] at hn
      rw [← hname]
      exact hn.2
    · intro x hxm hns2 hnm
      obtain ⟨x0, _, hx0⟩ := List.mem_map.1 hxm
      by_cases hkey : (x0.Namespace == (RemoveFinalizer d domainFinalizer).Namespace &&
          x0.Name == (RemoveFinalizer d domainFinalizer).Name) = true
      · rw [if_pos hkey] at hx0
        rw [← hx0]
        exact containsFinalizer_removeFinalizer d domainFinalizer
      · rw [if_neg hkey] at hx0
        rw [hx0] at hkey
        exfalso
        apply hkey
        simp [hns2, hnm, RemoveFinalizer]

/-- C5, amended, at Scenario E: `teamA` under deletion, record already absent, namespace
still there. -/
theorem C5_absent_is_success_witness :
    worldRecordGone.faults = [] ∧
      World.client.GetDomain reqA.NamespacedName worldRecordGone =
        (.ok dTerminating, worldRecordGone) ∧
      ContainsFinalizer dTerminating domainFinalizer = true ∧
      IsZero dTerminating.DeletionTimestamp = false ∧
      (∀ r ∈ worldRecordGone.rows, r.DomainID ≠ dTerminating.Name) ∧
      (∃ n ∈ worldRecordGone.namespaces, n.Name = dTerminating.Name) ∧
      (runReconcile World.client acceptAll reqA worldRecordGone).1 = ({}, none) ∧
      (runReconcile World.client acceptAll reqA worldRecordGone).2.world =
        worldOf { dTerminating with Finalizers := [] } :=
  ⟨by decide, by decide, by decide, by decide, by decide, by decide,
    (C5_absent_is_success.2.2 acceptAll reqA worldRecordGone dTerminating (by decide)
      (by decide) (by decide) (by decide) (by decide) (by decide)).1,
    by decide⟩

/-- C6, as stated, fails.  Entity `teamA` under deletion with the finalizer,
the lookup of the namespace fails with `errBoom`, which is not a NotFound:
`Reconcile` returns a new error that wraps `errBoom` under the text
"failed to get namespace teamA for deletion: ", not `errBoom` itself. -/
theorem C6_wrapped_error_counterexample :
    World.client.GetDomain reqA.NamespacedName worldGetFails =
        (.ok dTerminating, { worldGetFails with faults := [none, some errBoom] }) ∧
      ContainsFinalizer dTerminating domainFinalizer = true ∧
      IsZero dTerminating.DeletionTimestamp = false ∧
      IsNotFound errBoom = false ∧
      (runReconcile World.client acceptAll reqA worldGetFails).2.trace =
        [⟨.getDomain reqA.NamespacedName, none⟩,
         ⟨.exec deleteSQL [.text "teamA"], none⟩,
         ⟨.getNamespace ⟨"", "teamA"⟩, some errBoom⟩] ∧
      (runReconcile World.client acceptAll reqA worldGetFails).1.2 =
        some (.wrap "failed to get namespace teamA for deletion: connection refused"
          errBoom) ∧
      (runReconcile World.client acceptAll reqA worldGetFails).1.2 ≠ some errBoom := by
  decide

/-- C6, amended. Finalization error propagation: on a fetched entity under
deletion that carries the finalizer, a failed DELETE of the record makes
`Reconcile` return that very error; a lookup of the namespace that fails with
an error other than NotFound, and a deletion of the namespace that fails with
an error other than NotFound, make it return an error that wraps the adapter
error under a text naming the namespace.  In each case the run ends at the
failed call: the entity is not updated, and in the in-memory world a failed
finalization leaves the stored entities, finalizer included, as they were. -/
theorem C6_finalization_error_propagation {σ : Type} (c : Client σ)
    (Validate : Domain → Option GoError) (req : Request) (w w1 : σ) (d : Domain)
    (hget : c.GetDomain req.NamespacedName w = (.ok d, w1))
    (hfin : ContainsFinalizer d domainFinalizer = true)
    (hdel : IsZero d.DeletionTimestamp = false) :
    (∀ e w2, c.Exec deleteSQL [.text d.Name] w1 = (some e, w2) →
      runReconcile c Validate req w =
        (({}, some e),
          ⟨w2, [⟨.getDomain req.NamespacedName, none⟩,
            ⟨.exec deleteSQL [.text d.Name], some e⟩]⟩)) ∧
    (∀ w2 e w3, c.Exec deleteSQL [.text d.Name] w1 = (none, w2) →
      c.GetNamespace ⟨"", d.Name⟩ w2 = (.error e, w3) → IsNotFound e = false →
      runReconcile c Validate req w =
        (({}, some (.wrap ("failed to get namespace " ++ d.Name ++ " for deletion: "
            ++ e.Error) e)),
          ⟨w3, [⟨.getDomain req.NamespacedName, none⟩,
            ⟨.exec deleteSQL [.text d.Name], none⟩,
            ⟨.getNamespace ⟨"", d.Name⟩, some e⟩]⟩)) ∧
    (∀ w2 ns w3 e w4, c.Exec deleteSQL [.text d.Name] w1 = (none, w2) →
      c.GetNamespace ⟨"", d.Name⟩ w2 = (.ok ns, w3) →
      c.DeleteNamespace ns w3 = (some e, w4) → IsNotFound e = false →
      runReconcile c Validate req w =
        (({}, some (.wrap ("failed to delete namespace " ++ d.Name ++ ": " ++ e.Error) e)),
          ⟨w4, [⟨.getDomain req.NamespacedName, none⟩,
            ⟨.exec deleteSQL [.text d.Name], none⟩,
            ⟨.getNamespace ⟨"", d.Name⟩, none⟩,
            ⟨.deleteNamespace ns, some e⟩]⟩)) ∧
    (∀ (V : Domain → Option GoError) (r : Request) (x x1 : World) (err : GoError)
      (s2 : Run World),
      World.client.GetDomain r.NamespacedName x = (.ok d, x1) →
      finalizeDomain World.client d ⟨x1, [⟨.getDomain r.NamespacedName, none⟩]⟩ =
        (some err, s2) →
      (runReconcile World.client V r x).1.2 = some err ∧
        (runReconcile World.client V r x).2.world.domains = x.domains ∧
        ∀ ev ∈ (runReconcile World.client V r x).2.trace, ev.call.isEntityUpdate = false) := by
  refine ⟨?_, ?_, ?_, ?_⟩
  rotate_left 3
  · intro V r x x1 err s2 hg hf
    have hrun := reconcile_terminating World.client V r x x1 d hg hfin hdel
    rw [hf] at hrun
    simp only [] at hrun
    rw [hrun]
    have hfr := finalize_world_domains d ⟨x1, [⟨.getDomain r.NamespacedName, none⟩]⟩
    have hgd := getDomain_domains r.NamespacedName x
    obtain ⟨evs, htr, hall, _⟩ :=
      finalize_trace World.client d ⟨x1, [⟨.getDomain r.NamespacedName, none⟩]⟩
    rw [hf] at hfr htr
    rw [hg] at hgd
    refine ⟨rfl, hfr.trans hgd, ?_⟩
    intro ev hev
    simp only [] at htr hev
    rw [htr] at hev
    rcases List.mem_append.1 hev with h | h
    · simp only [List.mem_singleton] at h
      rw [h]; rfl
    · rcases hall ev h with h2 | h2 | ⟨ns, h2⟩ <;> rw [h2] <;> rfl
  · intro e w2 h1
    rw [reconcile_terminating c Validate req w w1 d hget hfin hdel,
      finalize_recordFails c d _ e w2 h1]
    rfl
  · intro w2 e w3 h1 h2 hnf
    rw [reconcile_terminating c Validate req w w1 d hget hfin hdel,
      finalize_recordDeleted c d _ w2 h1, deleteNamespace_getFails c d.Name _ e w3 h2 hnf]
    rfl
  · intro w2 ns w3 e w4 h1 h2 h3 _
    rw [reconcile_terminating c Validate req w w1 d hget hfin hdel,
      finalize_recordDeleted c d _ w2 h1,
      deleteNamespace_deleteFails c d.Name _ ns e w3 w4 h2 h3]
    rfl

/-- C6, amended, at entity `teamA` under deletion in a world where the DELETE
of the record fails with `errBoom`: that error is returned and the stored
entity keeps the finalizer. -/
theorem C6_finalization_error_propagation_witness :
    World.client.GetDomain reqA.NamespacedName worldExecFails =
        (.ok dTerminating, { worldExecFails with faults := [some errBoom] }) ∧
      ContainsFinalizer dTerminating domainFinalizer = true ∧
      IsZero dTerminating.DeletionTimestamp = false ∧
      World.client.Exec deleteSQL [.text dTerminating.Name]
          { worldExecFails with faults := [some errBoom] } =
        (some errBoom, { worldExecFails with faults := [] }) ∧
      runReconcile World.client acceptAll reqA worldExecFails =
        (({}, some errBoom),
          ⟨{ worldExecFails with faults := [] },
            [⟨.getDomain reqA.NamespacedName, none⟩,
             ⟨.exec deleteSQL [.text dTerminating.Name], some errBoom⟩]⟩) ∧
      (runReconcile World.client acceptAll reqA worldExecFails).2.world.domains =
        [dTerminating] :=
  ⟨by decide, by decide, by decide, by decide,
    (C6_finalization_error_propagation World.client acceptAll reqA worldExecFails
      { worldExecFails with faults := [some errBoom] } dTerminating
      (by decide) (by decide) (by decide)).1 errBoom { worldExecFails with faults := [] }
      (by decide),
    by decide⟩

/-- C7. Create-or-update sync: when `syncDomainWithDatabase` returns no error,
it issued the INSERT exactly when the table had no row of the entity's `id`
and the UPDATE exactly when it had one; afterwards the table holds a row of
that `id`, every row of that `id` carries the entity's environments, and a namespace
that was already there leaves the namespaces as they were. -/
theorem C7_create_or_update (d : Domain) (w : World) (s2 : Run World)
    (hok : syncDomainWithDatabase World.client d ⟨w, []⟩ = (none, s2)) :
    ((∃ ev ∈ s2.trace, ∃ a, ev.call = .exec insertSQL a) ↔
        ¬ ∃ r ∈ w.rows, r.DomainID = d.Spec.DomainID) ∧
      ((∃ ev ∈ s2.trace, ∃ a, ev.call = .exec updateSQL a) ↔
        ∃ r ∈ w.rows, r.DomainID = d.Spec.DomainID) ∧
      (∃ r ∈ s2.world.rows, r.DomainID = d.Spec.DomainID ∧
        r.Environments = d.Spec.Environments) ∧
      (∀ r ∈ s2.world.rows, r.DomainID = d.Spec.DomainID →
        r.Environments = d.Spec.Environments) ∧
      ((∃ n ∈ w.namespaces, n.Name = d.Spec.DomainID) →
        s2.world.namespaces = w.namespaces) := by
  obtain ⟨q, x, evs, htr, hq, hall, hrec, hns⟩ := sync_world_success d ⟨w, []⟩ s2 hok
  simp only [List.nil_append] at htr
  have hexec : ∀ sql, (∃ ev ∈ s2.trace, ∃ a, ev.call = .exec sql a) →
      ∃ a, x.call = .exec sql a := by
    rintro sql ⟨ev, hev, a, ha⟩
    rw [htr] at hev
    rcases List.mem_cons.1 hev with h | h
    · rw [h, hq] at ha; cases ha
    · rcases List.mem_cons.1 h with h | h
      · exact ⟨a, h ▸ ha⟩
      · have := hall ev h
        rw [ha] at this
        cases this
  have hx : x ∈ s2.trace := by rw [htr]; simp
  rcases hrec with ⟨hfree, hxe, hrows⟩ | ⟨hex, hxe, hrows⟩
  · have hno : ¬ ∃ r ∈ w.rows, r.DomainID = d.Spec.DomainID :=
      fun ⟨r, hr, heq⟩ => hfree r hr heq
    refine ⟨⟨fun _ => hno, fun _ => ⟨x, hx, recordArgs d, by rw [hxe]⟩⟩, ⟨?_, ?_⟩, ?_, ?_, ?_⟩
    · intro h
      obtain ⟨a, ha⟩ := hexec updateSQL h
      rw [hxe] at ha
      simp only [Call.exec.injEq] at ha
      exact absurd ha.1.symm statements_distinct.1
    · intro h
      exact absurd h hno
    · exact ⟨⟨d.Spec.DomainID, d.Spec.Environments⟩, by rw [hrows]; simp, rfl, rfl⟩
    · intro r hr heq
      rw [hrows] at hr
      rcases List.mem_append.1 hr with h | h
      · exact absurd heq (hfree r h)
      · simp only [List.mem_singleton] at h
        rw [h]
    · rintro ⟨n, hn, hname⟩
      rcases hns with ⟨_, h⟩ | ⟨h, _⟩
      · exact h
      · exact absurd hname (h n hn)
  · refine ⟨⟨?_, ?_⟩, ⟨fun _ => hex, fun _ => ⟨x, hx, recordArgs d, by rw [hxe]⟩⟩,
      ?_, ?_, ?_⟩
    · intro h
      obtain ⟨a, ha⟩ := hexec insertSQL h
      rw [hxe] at ha
      simp only [Call.exec.injEq] at ha
      exact absurd ha.1 statements_distinct.1
    · intro h
      exact absurd hex h
    · obtain ⟨r, hr, heq⟩ := hex
      refine ⟨{ r with Environments := d.Spec.Environments }, ?_, heq, rfl⟩
      rw [hrows]
      exact List.mem_map.2 ⟨r, hr, by simp [heq]⟩
    · intro r hr heq
      rw [hrows] at hr
      obtain ⟨r0, _, hr0⟩ := List.mem_map.1 hr
      by_cases h0 : r0.DomainID = d.Spec.DomainID
      · simp only [h0, beq_self_eq_true, if_true] at hr0
        rw [← hr0]
      · have hb : (r0.DomainID == d.Spec.DomainID) = false := by simpa using h0
        simp only [hb, Bool.false_eq_true, if_false] at hr0
        rw [hr0] at h0
        exact absurd heq h0
    · rintro ⟨n, hn, hname⟩
      rcases hns with ⟨_, h⟩ | ⟨h, _⟩
      · exact h
      · exact absurd hname (h n hn)

/-- C7 at Scenario C: `teamA` updated to `dev, prod` while its record and its namespace
exist; the run issues the UPDATE, no INSERT, and leaves the
namespaces as they are. -/
theorem C7_create_or_update_witness :
    syncDomainWithDatabase World.client dUpdated ⟨worldSynced dUpdated, []⟩ =
        (none,
          ⟨⟨[dUpdated], [namespaceFor "teamA"], [⟨"teamA", ["dev", "prod"]⟩], []⟩,
            [⟨.queryRow selectSQL [.text "teamA"], none⟩,
             ⟨.exec updateSQL [.text "teamA", .textArray ["dev", "prod"]], none⟩,
             ⟨.getNamespace ⟨"", "teamA"⟩, none⟩]⟩) ∧
      ((∃ ev ∈ ([⟨.queryRow selectSQL [.text "teamA"], none⟩,
             ⟨.exec updateSQL [.text "teamA", .textArray ["dev", "prod"]], none⟩,
             ⟨.getNamespace ⟨"", "teamA"⟩, none⟩] : List Event),
          ∃ a, ev.call = .exec updateSQL a) ↔
        ∃ r ∈ (worldSynced dUpdated).rows, r.DomainID = dUpdated.Spec.DomainID) :=
  ⟨by rfl,
    (C7_create_or_update dUpdated (worldSynced dUpdated)
      ⟨⟨[dUpdated], [namespaceFor "teamA"], [⟨"teamA", ["dev", "prod"]⟩], []⟩,
        [⟨.queryRow selectSQL [.text "teamA"], none⟩,
         ⟨.exec updateSQL [.text "teamA", .textArray ["dev", "prod"]], none⟩,
         ⟨.getNamespace ⟨"", "teamA"⟩, none⟩]⟩ (by rfl)).2.1⟩

/-- C8. Fixed finalization order: the first call of `finalizeDomain` is the
DELETE of the record and every later call goes to the namespace adapter.  When
the DELETE returns an error, that error is returned and no call follows, and
in the in-memory world the namespaces are as they were.  When the DELETE
returns no error, the second call is the lookup of the namespace, and when
the namespace is found the third call deletes it and its answer decides the
result; every call to the namespace adapter comes after a DELETE that returned
no error.  In the in-memory world with no pending fault, a namespace that is
there is gone afterwards, and so is every row of the record. -/
theorem C8_finalization_order {σ : Type} (c : Client σ) (d : Domain) (s : Run σ) :
    (∃ rest, (finalizeDomain c d s).2.trace =
        s.trace ++ ⟨.exec deleteSQL [.text d.Name],
          (c.Exec deleteSQL [.text d.Name] s.world).1⟩ :: rest ∧
      ∀ ev ∈ rest, ev.call.isNamespaceCall = true) ∧
    (∀ e w2, c.Exec deleteSQL [.text d.Name] s.world = (some e, w2) →
      finalizeDomain c d s =
        (some e, ⟨w2, s.trace ++ [⟨.exec deleteSQL [.text d.Name], some e⟩]⟩)) ∧
    (∀ pre ev post, (finalizeDomain c d s).2.trace = s.trace ++ (pre ++ ev :: post) →
      ev.call.isNamespaceCall = true →
      (⟨.exec deleteSQL [.text d.Name], none⟩ : Event) ∈ pre) ∧
    (∀ (w : World) e w2, World.client.Exec deleteSQL [.text d.Name] w = (some e, w2) →
      (finalizeDomain World.client d ⟨w, []⟩).1 = some e ∧
        (finalizeDomain World.client d ⟨w, []⟩).2.world.namespaces = w.namespaces) ∧
    (∀ w2, c.Exec deleteSQL [.text d.Name] s.world = (none, w2) →
      ∃ rest, (finalizeDomain c d s).2.trace =
          s.trace ++ ⟨.exec deleteSQL [.text d.Name], none⟩ ::
            ⟨.getNamespace ⟨"", d.Name⟩, errOf (c.GetNamespace ⟨"", d.Name⟩ w2).1⟩ :: rest ∧
        ∀ ev ∈ rest, ∃ ns, ev.call = .deleteNamespace ns) ∧
    (∀ w2 ns w3, c.Exec deleteSQL [.text d.Name] s.world = (none, w2) →
      c.GetNamespace ⟨"", d.Name⟩ w2 = (.ok ns, w3) →
      finalizeDomain c d s =
        ((c.DeleteNamespace ns w3).1.map
            (ErrorfW ("failed to delete namespace " ++ d.Name ++ ": ")),
          ⟨(c.DeleteNamespace ns w3).2,
            s.trace ++ [⟨.exec deleteSQL [.text d.Name], none⟩,
              ⟨.getNamespace ⟨"", d.Name⟩, none⟩,
              ⟨.deleteNamespace ns, (c.DeleteNamespace ns w3).1⟩]⟩)) ∧
    (∀ w2 e w3, c.Exec deleteSQL [.text d.Name] s.world = (none, w2) →
      c.GetNamespace ⟨"", d.Name⟩ w2 = (.error e, w3) →
      finalizeDomain c d s =
        ((if IsNotFound e then none
          else some (ErrorfW ("failed to get namespace " ++ d.Name ++ " for deletion: ") e)),
          ⟨w3, s.trace ++ [⟨.exec deleteSQL [.text d.Name], none⟩,
            ⟨.getNamespace ⟨"", d.Name⟩, some e⟩]⟩)) ∧
    (∀ (w : World), w.faults = [] → (∃ n ∈ w.namespaces, n.Name = d.Name) →
      (finalizeDomain World.client d ⟨w, []⟩).1 = none ∧
        (∃ ns, ns ∈ w.namespaces ∧ ns.Name = d.Name ∧
          (finalizeDomain World.client d ⟨w, []⟩).2.trace =
            [⟨.exec deleteSQL [.text d.Name], none⟩,
             ⟨.getNamespace ⟨"", d.Name⟩, none⟩,
             ⟨.deleteNamespace ns, none⟩]) ∧
        (∀ r ∈ (finalizeDomain World.client d ⟨w, []⟩).2.world.rows, r.DomainID ≠ d.Name) ∧
        (∀ n ∈ (finalizeDomain World.client d ⟨w, []⟩).2.world.namespaces,
          n.Name ≠ d.Name)) := by
  refine ⟨?_, fun e w2 h => finalize_recordFails c d s e w2 h, ?_, ?_, ?_, ?_, ?_, ?_⟩
  · rcases finalize_cases c d s with
      ⟨e, w2, h1, h⟩ | ⟨w2, e, w3, h1, _, _, h⟩ | ⟨w2, e, w3, h1, _, _, h⟩ |
      ⟨w2, ns, w3, e, w4, h1, _, _, h⟩ | ⟨w2, ns, w3, w4, h1, _, _, h⟩ <;>
    · rw [h, h1]
      exact ⟨_, rfl, by simp [Call.isNamespaceCall]⟩
  · intro pre ev post hsplit hev
    rcases finalize_cases c d s with
      ⟨e, w2, _, h⟩ | ⟨w2, e, w3, _, _, _, h⟩ | ⟨w2, e, w3, _, _, _, h⟩ |
      ⟨w2, ns, w3, e, w4, _, _, _, h⟩ | ⟨w2, ns, w3, w4, _, _, _, h⟩ <;>
    · rw [h] at hsplit
      have hl := List.append_cancel_left hsplit
      cases pre with
      | nil =>
        simp only [List.nil_append, List.cons.injEq] at hl
        rw [← hl.1] at hev
        cases hev
      | cons p pre2 =>
        simp only [List.cons_append, List.cons.injEq] at hl
        first
          | (rw [← hl.1]; exact List.mem_cons_self _ _)
          | (obtain ⟨_, hrest⟩ := hl; cases pre2 <;> simp at hrest)
  · intro w e w2 h
    rw [finalize_recordFails World.client d ⟨w, []⟩ e w2 h]
    refine ⟨rfl, ?_⟩
    have := exec_namespaces deleteSQL [.text d.Name] w
    rw [h] at this
    exact this
  · intro w2 h1
    rw [finalize_recordDeleted c d s w2 h1]
    rcases h2 : c.GetNamespace ⟨"", d.Name⟩ w2 with ⟨e | ns, w3⟩
    · cases hnf : IsNotFound e
      · rw [deleteNamespace_getFails c d.Name _ e w3 h2 hnf]
        exact ⟨[], by simp [errOf], by simp⟩
      · rw [deleteNamespace_absent c d.Name _ e w3 h2 hnf]
        exact ⟨[], by simp [errOf], by simp⟩
    · rcases h3 : c.DeleteNamespace ns w3 with ⟨_ | e, w4⟩
      · rw [deleteNamespace_deleted c d.Name _ ns w3 w4 h2 h3]
        exact ⟨[⟨.deleteNamespace ns, none⟩], by simp [errOf], by simp⟩
      · rw [deleteNamespace_deleteFails c d.Name _ ns e w3 w4 h2 h3]
        exact ⟨[⟨.deleteNamespace ns, some e⟩], by simp [errOf], by simp⟩
  · intro w2 ns w3 h1 h2
    rw [finalize_recordDeleted c d s w2 h1]
    rcases h3 : c.DeleteNamespace ns w3 with ⟨_ | e, w4⟩
    · rw [deleteNamespace_deleted c d.Name _ ns w3 w4 h2 h3]
      simp
    · rw [deleteNamespace_deleteFails c d.Name _ ns e w3 w4 h2 h3]
      simp
  · intro w2 e w3 h1 h2
    rw [finalize_recordDeleted c d s w2 h1]
    cases hnf : IsNotFound e
    · rw [deleteNamespace_getFails c d.Name _ e w3 h2 hnf]
      simp
    · rw [deleteNamespace_absent c d.Name _ e w3 h2 hnf]
      simp
  · intro w hf hex
    have hx := exec_delete_nofault d.Name w hf
    have hf2 : ({ w with rows := w.rows.filter fun r => !(r.DomainID == d.Name) } :
        World).faults = [] := hf
    obtain ⟨ns, hns, hname, hg⟩ : ∃ ns, ns ∈ w.namespaces ∧ ns.Name = d.Name ∧
        World.client.GetNamespace ⟨"", d.Name⟩
          { w with rows := w.rows.filter fun r => !(r.DomainID == d.Name) } =
          (.ok ns, { w with rows := w.rows.filter fun r => !(r.DomainID == d.Name) }) := by
      have hg := getNamespace_nofault ⟨"", d.Name⟩
        { w with rows := w.rows.filter fun r => !(r.DomainID == d.Name) } hf2
      simp only [] at hg
      cases hfind : w.namespaces.find? fun n => n.Name == d.Name with
      | none =>
        obtain ⟨n, hn, heq⟩ := hex
        have := List.find?_eq_none.1 hfind n hn
        simp [heq] at this
      | some ns =>
        rw [hfind] at hg
        exact ⟨ns, List.mem_of_find?_eq_some hfind,
          by simpa using List.find?_some hfind, hg⟩
    have hdn := deleteNamespace_nofault ns
      { w with rows := w.rows.filter fun r => !(r.DomainID == d.Name) } hf2 ⟨ns, hns, rfl⟩
    rw [finalize_recordDeleted World.client d _ _ hx,
      deleteNamespace_deleted World.client d.Name _ ns _ _ hg hdn]
    refine ⟨rfl, ⟨ns, hns, hname, rfl⟩, ?_, ?_⟩
    · intro r hr
      simp only [List.mem_filter, Bool.not_eq_true', beq_eq_false_iff_ne, ne_eq] at hr
      exact hr.2
    · intro n hn
      simp only [List.mem_filter, Bool.not_eq_true', beq_eq_false_iff_ne, ne_eq] at hn
      rw [← hname]
      exact hn.2

/-- C8 at entity `teamA`.  In a world where the DELETE of the record fails,
the only call is the DELETE and the namespace `teamA` is still there.  At
Scenario D, where the record and the namespace exist and nothing fails, the
calls are the DELETE, the lookup and the deletion of the namespace, in this
order, and both the row and the namespace are gone. -/
theorem C8_finalization_order_witness :
    (World.client.Exec deleteSQL [.text dTerminating.Name] worldDeleteFails =
        (some errBoom, { worldDeleteFails with faults := [] }) ∧
      finalizeDomain World.client dTerminating ⟨worldDeleteFails, []⟩ =
        (some errBoom,
          ⟨{ worldDeleteFails with faults := [] },
            [] ++ [⟨.exec deleteSQL [.text dTerminating.Name], some errBoom⟩]⟩) ∧
      (finalizeDomain World.client dTerminating ⟨worldDeleteFails, []⟩).2.world.namespaces =
        [namespaceFor "teamA"]) ∧
    (World.client.Exec deleteSQL [.text dTerminating.Name] (worldSynced dTerminating) =
        (none, worldRecordGone) ∧
      World.client.GetNamespace ⟨"", dTerminating.Name⟩ worldRecordGone =
        (.ok (namespaceFor "teamA"), worldRecordGone) ∧
      World.client.DeleteNamespace (namespaceFor "teamA") worldRecordGone =
        (none, worldOf dTerminating) ∧
      finalizeDomain World.client dTerminating ⟨worldSynced dTerminating, []⟩ =
        ((World.client.DeleteNamespace (namespaceFor "teamA") worldRecordGone).1.map
            (ErrorfW ("failed to delete namespace " ++ dTerminating.Name ++ ": ")),
          ⟨(World.client.DeleteNamespace (namespaceFor "teamA") worldRecordGone).2,
            [] ++ [⟨.exec deleteSQL [.text dTerminating.Name], none⟩,
              ⟨.getNamespace ⟨"", dTerminating.Name⟩, none⟩,
              ⟨.deleteNamespace (namespaceFor "teamA"),
                (World.client.DeleteNamespace (namespaceFor "teamA") worldRecordGone).1⟩]⟩) ∧
      finalizeDomain World.client dTerminating ⟨worldSynced dTerminating, []⟩ =
        (none,
          ⟨worldOf dTerminating,
            [⟨.exec deleteSQL [.text "teamA"], none⟩,
             ⟨.getNamespace ⟨"", "teamA"⟩, none⟩,
             ⟨.deleteNamespace (namespaceFor "teamA"), none⟩]⟩)) :=
  ⟨⟨by decide,
      (C8_finalization_order World.client dTerminating ⟨worldDeleteFails, []⟩).2.1 errBoom
        { worldDeleteFails with faults := [] } (by decide),
      by decide⟩,
    ⟨by decide, by decide, by decide,
      (C8_finalization_order World.client dTerminating
        ⟨worldSynced dTerminating, []⟩).2.2.2.2.2.1 worldRecordGone (namespaceFor "teamA")
        worldRecordGone (by decide) (by decide),
      by rfl⟩⟩

/-- C9, as stated, fails.  Entity `teamA` under deletion that holds only the
finalizer of another controller: `Reconcile` adds its finalizer and issues the
Update; finalization does not run. -/
theorem C9_terminating_unmarked_counterexample :
    World.client.GetDomain reqA.NamespacedName (worldSynced dTerminatingUnmarked) =
        (.ok dTerminatingUnmarked, worldSynced dTerminatingUnmarked) ∧
      IsZero dTerminatingUnmarked.DeletionTimestamp = false ∧
      ContainsFinalizer dTerminatingUnmarked domainFinalizer = false ∧
      (runReconcile World.client acceptAll reqA (worldSynced dTerminatingUnmarked)).2.trace =
        [⟨.getDomain reqA.NamespacedName, none⟩,
         ⟨.updateDomain { dTerminatingUnmarked with
            Finalizers := ["other.example.com/finalizer", domainFinalizer] }, none⟩] ∧
      (runReconcile World.client acceptAll reqA (worldSynced dTerminatingUnmarked)).2.world =
        worldSynced { dTerminatingUnmarked with
          Finalizers := ["other.example.com/finalizer", domainFinalizer] } := by
  decide

/-- C9, amended. Terminating entity handling: on a fetched entity with
deletion intent that carries the finalizer, `Reconcile` runs finalization
right after the fetch, the DELETE of the record first; when finalization
fails it returns that error and makes no further call; when finalization
succeeds it issues one Update of the entity without the finalizer and returns
no error exactly when that Update returned none.  In every case no status is
written, no INSERT or UPDATE of the record and no creation of a namespace is
issued, and no Update carries the finalizer. -/
theorem C9_terminating_entity {σ : Type} (c : Client σ)
    (Validate : Domain → Option GoError) (req : Request) (w w1 : σ) (d : Domain)
    (hget : c.GetDomain req.NamespacedName w = (.ok d, w1))
    (hfin : ContainsFinalizer d domainFinalizer = true)
    (hdel : IsZero d.DeletionTimestamp = false) :
    (∃ rest, (runReconcile c Validate req w).2.trace =
      ⟨.getDomain req.NamespacedName, none⟩ ::
        ⟨.exec deleteSQL [.text d.Name], (c.Exec deleteSQL [.text d.Name] w1).1⟩ :: rest) ∧
    (∀ err s2, finalizeDomain c d ⟨w1, [⟨.getDomain req.NamespacedName, none⟩]⟩ =
        (some err, s2) →
      runReconcile c Validate req w = (({}, some err), s2)) ∧
    (∀ s2, finalizeDomain c d ⟨w1, [⟨.getDomain req.NamespacedName, none⟩]⟩ = (none, s2) →
      (runReconcile c Validate req w).2.trace =
          s2.trace ++ [⟨.updateDomain (RemoveFinalizer d domainFinalizer),
            (c.UpdateDomain (RemoveFinalizer d domainFinalizer) s2.world).1⟩] ∧
        (runReconcile c Validate req w).2.world =
          (c.UpdateDomain (RemoveFinalizer d domainFinalizer) s2.world).2 ∧
        ((runReconcile c Validate req w).1.2 = none ↔
          (c.UpdateDomain (RemoveFinalizer d domainFinalizer) s2.world).1 = none)) ∧
    (∀ ev ∈ (runReconcile c Validate req w).2.trace,
      ev.call.isStatusWrite = false ∧
        (∀ sql args, ev.call = .exec sql args → sql = deleteSQL) ∧
        (∀ ns, ev.call ≠ .createNamespace ns) ∧
        (∀ d2, ev.call = .updateDomain d2 →
          ContainsFinalizer d2 domainFinalizer = false)) := by
  have hrun := reconcile_terminating c Validate req w w1 d hget hfin hdel
  obtain ⟨evs, htr, hall, _⟩ :=
    finalize_trace c d ⟨w1, [⟨.getDomain req.NamespacedName, none⟩]⟩
  have hev : ∀ ev ∈ ([⟨.getDomain req.NamespacedName, none⟩] : List Event) ++ evs,
      ev.call.isStatusWrite = false ∧
        (∀ sql args, ev.call = .exec sql args → sql = deleteSQL) ∧
        (∀ ns, ev.call ≠ .createNamespace ns) ∧
        (∀ d2, ev.call = .updateDomain d2 →
          ContainsFinalizer d2 domainFinalizer = false) := by
    intro ev hmem
    rcases List.mem_append.1 hmem with h | h
    · simp only [List.mem_singleton] at h
      subst h
      simp [Call.isStatusWrite]
    · rcases hall ev h with h | h | ⟨ns, h⟩ <;> rw [h] <;> simp [Call.isStatusWrite]
  refine ⟨?_, ?_, ?_, ?_⟩
  · rw [hrun]
    rcases finalize_cases c d ⟨w1, [⟨.getDomain req.NamespacedName, none⟩]⟩ with
      ⟨e, w2, h1, h⟩ | ⟨w2, e, w3, h1, _, _, h⟩ | ⟨w2, e, w3, h1, _, _, h⟩ |
      ⟨w2, ns, w3, e, w4, h1, _, _, h⟩ | ⟨w2, ns, w3, w4, h1, _, _, h⟩ <;>
    · simp only [] at h1
      rw [h, h1]
      simp
  · intro err s2 hf
    rw [hrun, hf]
  · intro s2 hf
    rw [hrun, hf]
    refine ⟨rfl, rfl, ?_⟩
    show Option.map (ErrorfV "error removing finalizer ")
      (c.UpdateDomain (RemoveFinalizer d domainFinalizer) s2.world).1 = none ↔ _
    generalize (c.UpdateDomain (RemoveFinalizer d domainFinalizer) s2.world).1 = r
    cases r <;> simp
  · intro ev hmem
    rw [hrun] at hmem
    rcases hf : finalizeDomain c d ⟨w1, [⟨.getDomain req.NamespacedName, none⟩]⟩ with
      ⟨_ | err, s2⟩
    · rw [hf] at hmem htr
      simp only [List.mem_append, List.mem_singleton] at hmem
      rcases hmem with h | h
      · rw [htr] at h
        exact hev ev h
      · subst h
        simp [Call.isStatusWrite, containsFinalizer_removeFinalizer]
    · rw [hf] at hmem htr
      simp only [] at hmem htr
      rw [htr] at hmem
      exact hev ev hmem

/-- C9, amended, at Scenario D: entity `teamA` under deletion with the
finalizer, its record and its namespace present; the run deletes both and
stores the entity without the finalizer. -/
theorem C9_terminating_entity_witness :
    World.client.GetDomain reqA.NamespacedName (worldSynced dTerminating) =
        (.ok dTerminating, worldSynced dTerminating) ∧
      ContainsFinalizer dTerminating domainFinalizer = true ∧
      IsZero dTerminating.DeletionTimestamp = false ∧
      (∃ rest, (runReconcile World.client acceptAll reqA (worldSynced dTerminating)).2.trace =
        ⟨.getDomain reqA.NamespacedName, none⟩ ::
          ⟨.exec deleteSQL [.text dTerminating.Name],
            (World.client.Exec deleteSQL [.text dTerminating.Name]
              (worldSynced dTerminating)).1⟩ :: rest) ∧
      runReconcile World.client acceptAll reqA (worldSynced dTerminating) =
        (({}, none),
          ⟨worldOf { dTerminating with Finalizers := [] },
            [⟨.getDomain reqA.NamespacedName, none⟩,
             ⟨.exec deleteSQL [.text "teamA"], none⟩,
             ⟨.getNamespace ⟨"", "teamA"⟩, none⟩,
             ⟨.deleteNamespace (namespaceFor "teamA"), none⟩,
             ⟨.updateDomain { dTerminating with Finalizers := [] }, none⟩]⟩) :=
  ⟨by decide, by decide, by decide,
    (C9_terminating_entity World.client acceptAll reqA (worldSynced dTerminating)
      (worldSynced dTerminating) dTerminating (by decide) (by decide) (by decide)).1,
    by rfl⟩

/-- C10. Truthful status: in every run of `Reconcile`, a status write with
`valid = true` is made only for a fetched entity that carries the finalizer,
is not being deleted, matches the dispatch key and passed validation, and only
after synchronization returned no error: an INSERT or an UPDATE of the record
returned no error, and the namespace was found or created without error.
Whenever synchronization returns an error, the namespace step included,
`Reconcile` returns that error and the run contains no status write. -/
theorem C10_truthful_status {σ : Type} (c : Client σ)
    (Validate : Domain → Option GoError) (req : Request) (w : σ) :
    (∀ d e, (⟨.statusUpdate d, e⟩ : Event) ∈ (runReconcile c Validate req w).2.trace →
      d.Status.Valid = true →
      ∃ d0 w1, c.GetDomain req.NamespacedName w = (.ok d0, w1) ∧ d = withValid d0 true ∧
        ContainsFinalizer d0 domainFinalizer = true ∧
        IsZero d0.DeletionTimestamp = true ∧
        req.Name = d0.Spec.DomainID ∧
        Validate d0 = none ∧
        (syncDomainWithDatabase c d0 ⟨w1, [⟨.getDomain req.NamespacedName, none⟩]⟩).1 = none ∧
        ((⟨.exec insertSQL (recordArgs d0), none⟩ : Event) ∈
            (runReconcile c Validate req w).2.trace ∨
          (⟨.exec updateSQL (recordArgs d0), none⟩ : Event) ∈
            (runReconcile c Validate req w).2.trace) ∧
        ((⟨.getNamespace ⟨"", d0.Spec.DomainID⟩, none⟩ : Event) ∈
            (runReconcile c Validate req w).2.trace ∨
          (⟨.createNamespace (namespaceFor d0.Spec.DomainID), none⟩ : Event) ∈
            (runReconcile c Validate req w).2.trace)) ∧
    (∀ d0 w1 err s2, c.GetDomain req.NamespacedName w = (.ok d0, w1) →
      ContainsFinalizer d0 domainFinalizer = true →
      IsZero d0.DeletionTimestamp = true →
      req.Name = d0.Spec.DomainID →
      Validate d0 = none →
      syncDomainWithDatabase c d0 ⟨w1, [⟨.getDomain req.NamespacedName, none⟩]⟩ =
        (some err, s2) →
      runReconcile c Validate req w = (({}, some err), s2) ∧
        ∀ ev ∈ (runReconcile c Validate req w).2.trace, ev.call.isStatusWrite = false) ∧
    (∀ (d0 : Domain) (op : String) (s : Run σ) w2 err s2,
      c.Exec (statementOf op) (recordArgs d0) s.world = (none, w2) →
      createNamespaceForDomain c d0
        ⟨w2, s.trace ++ [⟨.exec (statementOf op) (recordArgs d0), none⟩]⟩ = (some err, s2) →
      createOrUpdateDomain c d0 op s = (some err, s2)) := by
  refine ⟨?_, ?_, ?_⟩
  · intro d e hmem hvalid
    rcases hg : c.GetDomain req.NamespacedName w with ⟨err | d0, w1⟩
    · rw [reconcile_unfetched c Validate req w w1 err hg] at hmem
      simp at hmem
    · cases hfin : ContainsFinalizer d0 domainFinalizer
      · rw [reconcile_unmarked c Validate req w w1 d0 hg hfin] at hmem
        simp at hmem
      · cases hz : IsZero d0.DeletionTimestamp
        · have hrun := reconcile_terminating c Validate req w w1 d0 hg hfin hz
          obtain ⟨evs, htr, hall, _⟩ :=
            finalize_trace c d0 ⟨w1, [⟨.getDomain req.NamespacedName, none⟩]⟩
          have hcl := finalize_calls_classified d0 evs hall
          rw [hrun] at hmem
          rcases hf : finalizeDomain c d0 ⟨w1, [⟨.getDomain req.NamespacedName, none⟩]⟩ with
            ⟨_ | err, s2⟩
          · rw [hf] at hmem htr
            simp only [] at hmem htr
            rw [htr] at hmem
            rcases List.mem_append.1 hmem with h | h
            · have := status_not_among req.NamespacedName evs hcl _ h
              simp [Call.isStatusWrite] at this
            · simp at h
          · rw [hf] at hmem htr
            simp only [] at hmem htr
            rw [htr] at hmem
            have := status_not_among req.NamespacedName evs hcl _ hmem
            simp [Call.isStatusWrite] at this
        · by_cases hbad : req.Name ≠ d0.Spec.DomainID ∨ Validate d0 ≠ none
          · rw [reconcile_invalid c Validate req w w1 d0 hg hfin hz hbad] at hmem
            simp only [List.mem_cons, Event.mk.injEq, Call.statusUpdate.injEq,
              List.not_mem_nil, or_false, false_and, false_or, reduceCtorEq] at hmem
            rw [hmem.1] at hvalid
            simp [withValid] at hvalid
          · simp only [not_or, not_not] at hbad
            obtain ⟨hid, hval⟩ := hbad
            have hrun := reconcile_active c Validate req w w1 d0 hg hfin hz hid hval
            obtain ⟨evs, htr, hall, hok⟩ :=
              sync_trace c d0 ⟨w1, [⟨.getDomain req.NamespacedName, none⟩]⟩
            rcases hs : syncDomainWithDatabase c d0
              ⟨w1, [⟨.getDomain req.NamespacedName, none⟩]⟩ with ⟨_ | err, s2⟩
            · rw [hs] at htr hok
              simp only [] at htr
              have htrace : (runReconcile c Validate req w).2.trace =
                  ([⟨.getDomain req.NamespacedName, none⟩] ++ evs) ++
                    [⟨.statusUpdate (withValid d0 true),
                      (c.StatusUpdate (withValid d0 true) s2.world).1⟩] := by
                rw [hrun, hs]
                simp only [updateDomainStatus_eq, htr]
              rw [htrace] at hmem ⊢
              obtain ⟨hx, hn⟩ := hok rfl
              have hd : d = withValid d0 true := by
                rcases List.mem_append.1 hmem with h | h
                · have := status_not_among req.NamespacedName evs hall _ h
                  simp [Call.isStatusWrite] at this
                · simp only [List.mem_singleton, Event.mk.injEq,
                    Call.statusUpdate.injEq] at h
                  exact h.1
              refine ⟨d0, w1, rfl, hd, hfin, hz, hid, hval, by rw [hs], ?_, ?_⟩
              · rcases hx with h | h
                · exact Or.inl (List.mem_append_left _ (List.mem_append_right _ h))
                · exact Or.inr (List.mem_append_left _ (List.mem_append_right _ h))
              · rcases hn with h | h
                · exact Or.inl (List.mem_append_left _ (List.mem_append_right _ h))
                · exact Or.inr (List.mem_append_left _ (List.mem_append_right _ h))
            · rw [hrun, hs] at hmem
              rw [hs] at htr
              simp only [] at hmem htr
              rw [htr] at hmem
              have := status_not_among req.NamespacedName evs hall _ hmem
              simp [Call.isStatusWrite] at this
  · intro d0 w1 err s2 hg hfin hz hid hval hs
    have hrun := reconcile_active c Validate req w w1 d0 hg hfin hz hid hval
    rw [hs] at hrun
    simp only [] at hrun
    refine ⟨hrun, ?_⟩
    rw [hrun]
    obtain ⟨evs, htr, hall, _⟩ :=
      sync_trace c d0 ⟨w1, [⟨.getDomain req.NamespacedName, none⟩]⟩
    rw [hs] at htr
    simp only [] at htr
    intro ev hev
    rw [htr] at hev
    exact status_not_among req.NamespacedName evs hall ev hev
  · intro d0 op s w2 err s2 h1 h2
    unfold statementOf recordArgs at h1 h2
    rw [createOrUpdate_recordWritten c d0 op s w2 h1, h2]

/-- C10 at Scenario B, where the run of `teamA` ends with the status write
`valid = true`, and at a world where the query of the record fails, where the
run returns that error and writes no status. -/
theorem C10_truthful_status_witness :
    ((⟨.statusUpdate (withValid dActive true), none⟩ : Event) ∈
        (runReconcile World.client acceptAll reqA (worldOf dActive)).2.trace ∧
      (withValid dActive true).Status.Valid = true ∧
      ∃ d0 w1, World.client.GetDomain reqA.NamespacedName (worldOf dActive) = (.ok d0, w1) ∧
        withValid dActive true = withValid d0 true ∧
        ContainsFinalizer d0 domainFinalizer = true ∧
        IsZero d0.DeletionTimestamp = true ∧
        reqA.Name = d0.Spec.DomainID ∧
        acceptAll d0 = none ∧
        (syncDomainWithDatabase World.client d0
          ⟨w1, [⟨.getDomain reqA.NamespacedName, none⟩]⟩).1 = none ∧
        ((⟨.exec insertSQL (recordArgs d0), none⟩ : Event) ∈
            (runReconcile World.client acceptAll reqA (worldOf dActive)).2.trace ∨
          (⟨.exec updateSQL (recordArgs d0), none⟩ : Event) ∈
            (runReconcile World.client acceptAll reqA (worldOf dActive)).2.trace) ∧
        ((⟨.getNamespace ⟨"", d0.Spec.DomainID⟩, none⟩ : Event) ∈
            (runReconcile World.client acceptAll reqA (worldOf dActive)).2.trace ∨
          (⟨.createNamespace (namespaceFor d0.Spec.DomainID), none⟩ : Event) ∈
            (runReconcile World.client acceptAll reqA (worldOf dActive)).2.trace)) ∧
    (World.client.GetDomain reqA.NamespacedName worldQueryFails =
        (.ok dActive, { worldQueryFails with faults := [some errBoom] }) ∧
      ContainsFinalizer dActive domainFinalizer = true ∧
      IsZero dActive.DeletionTimestamp = true ∧
      reqA.Name = dActive.Spec.DomainID ∧
      acceptAll dActive = none ∧
      syncDomainWithDatabase World.client dActive
          ⟨{ worldQueryFails with faults := [some errBoom] },
            [⟨.getDomain reqA.NamespacedName, none⟩]⟩ =
        (some errBoom,
          ⟨{ worldQueryFails with faults := [] },
            [⟨.getDomain reqA.NamespacedName, none⟩,
             ⟨.queryRow selectSQL [.text "teamA"], some errBoom⟩]⟩) ∧
      runReconcile World.client acceptAll reqA worldQueryFails =
        (({}, some errBoom),
          ⟨{ worldQueryFails with faults := [] },
            [⟨.getDomain reqA.NamespacedName, none⟩,
             ⟨.queryRow selectSQL [.text "teamA"], some errBoom⟩]⟩)) :=
  ⟨⟨by decide, by decide,
      (C10_truthful_status World.client acceptAll reqA (worldOf dActive)).1
        (withValid dActive true) none (by decide) (by decide)⟩,
    ⟨by decide, by decide, by decide, by decide, by rfl, by rfl,
      ((C10_truthful_status World.client acceptAll reqA worldQueryFails).2.1 dActive
        { worldQueryFails with faults := [some errBoom] } errBoom
        ⟨{ worldQueryFails with faults := [] },
          [⟨.getDomain reqA.NamespacedName, none⟩,
           ⟨.queryRow selectSQL [.text "teamA"], some errBoom⟩]⟩
        (by decide) (by decide) (by decide) (by decide) (by rfl) (by rfl)).1⟩⟩

end DomainOperator
